import Mathlib

/-!
# Verification of the AI-coaching orchestration engine

Shallow embedding of `backend/src/ai_coaching/agents/orchestrator.py`
(together with the parts of `agents/registry.py`, `agents/base.py` and
`models/base.py` it relies on), and proofs of the specified properties of
the task/workflow orchestration core.

Modelling conventions:
* Python `datetime` timestamps are modelled as integers (seconds);
  `datetime.now(UTC)` is modelled by threading an explicit `now` parameter.
* Python dictionaries are modelled as association lists in insertion order
  (`dictSet` overwrites in place, appends fresh keys at the end, exactly
  like CPython dicts).
* `uuid4()`-generated identifiers are modelled as caller-supplied strings;
  freshness/uniqueness of uuids becomes an explicit hypothesis where needed.
* Opaque `Dict[str, Any]` payloads are modelled as `List (String × String)`;
  the single structured payload entry the orchestrator itself inspects,
  `result_data["context_updates"]` (a dict), is modelled as a separate
  `context_updates : Option (List (String × String))` field of the output
  record.
* An `async` Python method that can raise is modelled as a function into
  `Except String α`; raising exception `e` is `.error (str e)`.
* Worker agents are opaque: an agent is a function
  `AgentTask → Except String BaseAgentOutput`.
-/

namespace AICoaching

/-- `models/base.py`: `TaskStatus` enumeration. -/
inductive TaskStatus where
  | pending
  | running
  | completed
  | failed
  | cancelled
deriving DecidableEq, Repr

/-- `orchestrator.py`: `WorkflowStatus` enumeration. -/
inductive WorkflowStatus where
  | pending
  | running
  | completed
  | failed
  | cancelled
  | paused
deriving DecidableEq, Repr

/-- `orchestrator.py`: `TaskPriority` enumeration. -/
inductive TaskPriority where
  | urgent
  | high
  | normal
  | low
  | background
deriving DecidableEq, Repr

/-- `models/base.py`: `AgentType` enumeration. -/
inductive AgentType where
  | email
  | schedule
  | knowledge
  | orchestrator
  | content
deriving DecidableEq, Repr

/-- `AgentType.value`: the string value of the enum member. -/
def AgentType.value : AgentType → String
  | .email => "email"
  | .schedule => "schedule"
  | .knowledge => "knowledge"
  | .orchestrator => "orchestrator"
  | .content => "content"

/-- String-keyed dictionary in insertion order (CPython dict semantics). -/
abbrev Dict (α : Type) := List (String × α)

/-- Dictionary lookup: first (and, since `dictSet` never duplicates keys,
only) binding of the key. Models Python `d[k]` / `d.get(k)`. -/
def dictGet {α : Type} (d : Dict α) (k : String) : Option α :=
  match d with
  | [] => none
  | (k', v) :: rest => if k' = k then some v else dictGet rest k

/-- Dictionary membership test, models Python `k in d`. -/
def dictContains {α : Type} (d : Dict α) (k : String) : Bool :=
  (dictGet d k).isSome

/-- Dictionary assignment `d[k] = v`: overwrites an existing binding in
place, otherwise appends the new binding (CPython insertion order). -/
def dictSet {α : Type} (d : Dict α) (k : String) (v : α) : Dict α :=
  match d with
  | [] => [(k, v)]
  | (k', v') :: rest => if k' = k then (k', v) :: rest else (k', v') :: dictSet rest k v

/-- Dictionary deletion / `d.pop(k, None)`: removes the binding if present. -/
def dictRemove {α : Type} (d : Dict α) (k : String) : Dict α :=
  match d with
  | [] => []
  | (k', v') :: rest => if k' = k then rest else (k', v') :: dictRemove rest k

/-- Python `dict.update(other)`: existing keys are overwritten in place,
fresh keys are appended in the order they occur in `other`. -/
def dictUpdate {α : Type} (d : Dict α) (other : Dict α) : Dict α :=
  match other with
  | [] => d
  | (k, v) :: rest => dictUpdate (dictSet d k v) rest

/-- Substring test (used to state what an error message cites). -/
def containsSubstr (s pat : String) : Bool :=
  decide (pat.toList <:+: s.toList)

/-- `models/base.py`: `BaseAgentOutput`, the structured outcome a worker
returns for one task.  `result_data` is an opaque payload; its single
orchestrator-relevant entry `result_data["context_updates"]` is modelled
by the separate `context_updates` field (see the header comment). -/
structure BaseAgentOutput where
  success : Bool
  confidence_score : Rat
  result_data : Dict String
  context_updates : Option (Dict String) := none
  error_message : Option String := none
  processing_time : Rat
deriving DecidableEq, Repr

/-- `agents/base.py`: `AgentTask`, the request record handed to a worker. -/
structure AgentTask where
  task_id : String
  task_type : String
  input_data : Dict String
  context : Dict String
  priority : Nat
  timeout_seconds : Int
deriving DecidableEq, Repr

/-- A worker agent, reduced to its `process_task` behaviour: it either
returns an outcome or raises (`.error`). -/
def Agent : Type := AgentTask → Except String BaseAgentOutput

/-- `agents/registry.py`: `AgentRegistry` reduced to its `get_agent`
lookup (`register`/`unregister` are not exercised by the claims). -/
def Registry : Type := AgentType → Option Agent

/-- `orchestrator.py`: `OrchestratedTask`. -/
structure OrchestratedTask where
  task_id : String
  parent_workflow_id : Option String := none
  task_type : String
  agent_type : AgentType
  input_data : Dict String := []
  context : Dict String := []
  priority : TaskPriority := .normal
  deadline : Option Int := none
  estimated_duration : Option Rat := none
  dependencies : List String := []
  dependents : List String := []
  status : TaskStatus := .pending
  assigned_to : Option String := none
  created_at : Int := 0
  started_at : Option Int := none
  completed_at : Option Int := none
  retry_count : Nat := 0
  max_retries : Nat := 3
  last_error : Option String := none
  result : Option BaseAgentOutput := none
deriving DecidableEq, Repr

/-- `orchestrator.py`: `Workflow`. -/
structure Workflow where
  workflow_id : String
  name : String
  description : Option String := none
  tasks : List OrchestratedTask := []
  execution_strategy : String := "sequential"
  status : WorkflowStatus := .pending
  created_at : Int := 0
  started_at : Option Int := none
  completed_at : Option Int := none
  shared_context : Dict String := []
  results : Dict BaseAgentOutput := []
  failed_tasks : List String := []
  error_strategy : String := "fail_fast"
deriving DecidableEq, Repr

/-- `orchestrator.py`: `AgentMetrics`. -/
structure AgentMetrics where
  agent_type : AgentType
  total_tasks : Nat := 0
  successful_tasks : Nat := 0
  failed_tasks : Nat := 0
  avg_processing_time : Rat := 0
  current_load : Nat := 0
  max_concurrent : Nat := 5
  last_activity : Option Int := none
  health_score : Rat := 1
deriving DecidableEq, Repr

/-- The orchestrator's mutable state (`self._task_queue`,
`self._active_tasks`, `self._workflows`, `self._agent_metrics` and the
workflow counters). -/
structure OrchestratorState where
  task_queue : List OrchestratedTask := []
  active_tasks : Dict OrchestratedTask := []
  workflows : Dict Workflow := []
  agent_metrics : List (AgentType × AgentMetrics) := []
  max_concurrent_tasks : Nat := 10
  task_timeout : Int := 300
  total_workflows : Nat := 0
  completed_workflows : Nat := 0
  failed_workflows : Nat := 0
deriving DecidableEq, Repr

/-! ## Priority queue (`_enqueue_task`) -/

/-- `orchestrator.py` line 480: the `priority_order` dict inside
`_enqueue_task` (urgent = 1 … background = 5; the `.get(…, 3)` default is
unreachable because the dict covers the whole enumeration). -/
def priority_order : TaskPriority → Nat
  | .urgent => 1
  | .high => 2
  | .normal => 3
  | .low => 4
  | .background => 5

/-- The insertion-point scan of `_enqueue_task` (lines 491-497):
`insert_index = 0; for i, queued_task in enumerate(queue): if
task_priority < queued_priority: insert_index = i; break; insert_index =
i + 1`.  `i` is the index of the head of `rest` in the original queue;
`acc` is the running value of `insert_index`. -/
def enqueueScan (task_priority : Nat) : List OrchestratedTask → Nat → Nat → Nat
  | [], _, acc => acc
  | q :: rest, i, _ =>
    if task_priority < priority_order q.priority then i
    else enqueueScan task_priority rest (i + 1) (i + 1)

/-- Python `list.insert(idx, x)` for `idx ≤ len` (always the case here). -/
def listInsert {α : Type} (idx : Nat) (x : α) (l : List α) : List α :=
  l.take idx ++ x :: l.drop idx

/-- `OrchestratorAgent._enqueue_task`: insert the task into the priority
queue at the scanned insertion point. -/
def enqueue_task (queue : List OrchestratedTask) (task : OrchestratedTask) :
    List OrchestratedTask :=
  listInsert (enqueueScan (priority_order task.priority) queue 0 0) task queue

/-! ## Dependency checks (`_check_task_dependencies`) and queue drain
(`_process_queue`) -/

/-- `OrchestratorAgent._check_task_dependencies` (lines 527-546).
With no dependencies: ready.  Inside a workflow: every dependency id must
be present in the workflow's results with a successful outcome.  Outside a
workflow: a dependency id still in the active-task map blocks the task
(there is no completed-task lookup — documented limitation). -/
def check_task_dependencies (active_tasks : Dict OrchestratedTask)
    (task : OrchestratedTask) (workflow : Option Workflow) : Bool :=
  if task.dependencies.isEmpty then true
  else
    match workflow with
    | some w =>
      task.dependencies.all fun dep_id =>
        match dictGet w.results dep_id with
        | none => false
        | some r => r.success
    | none =>
      task.dependencies.all fun dep_id => !(dictContains active_tasks dep_id)

/-- The inner scan of `_process_queue` (lines 514-519): find the first
queued task whose dependencies are satisfied; return it together with the
queue with that task popped. -/
def scanReady (active_tasks : Dict OrchestratedTask) :
    List OrchestratedTask → Option (OrchestratedTask × List OrchestratedTask)
  | [] => none
  | t :: rest =>
    if check_task_dependencies active_tasks t none then some (t, rest)
    else
      match scanReady active_tasks rest with
      | some (t', rest') => some (t', t :: rest')
      | none => none

/-- The `while` loop of `_process_queue` (lines 510-525).  During one
drain pass nothing inside the loop suspends (`_check_task_dependencies`
contains no awaits and dispatch uses `asyncio.create_task`), so the
active-task map — and with it `len(self._active_tasks)` — is constant for
the whole pass; dispatched tasks are collected in order instead of being
started in the background.  `fuel` is a termination artifact; each
iteration pops one queued task, so `fuel = queue.length` is exact. -/
def processQueueGo (active_count cap : Nat) (active_tasks : Dict OrchestratedTask) :
    Nat → List OrchestratedTask → List OrchestratedTask →
    List OrchestratedTask × List OrchestratedTask
  | 0, queue, dispatched_rev => (queue, dispatched_rev.reverse)
  | fuel + 1, queue, dispatched_rev =>
    if active_count < cap ∧ queue ≠ [] then
      match scanReady active_tasks queue with
      | none => (queue, dispatched_rev.reverse)
      | some (t, rest) => processQueueGo active_count cap active_tasks fuel rest (t :: dispatched_rev)
    else (queue, dispatched_rev.reverse)

/-- `OrchestratorAgent._process_queue`, one drain pass: returns the
remaining queue and the tasks handed to `_execute_single_task`, in
dispatch order. -/
def process_queue (active_count cap : Nat) (active_tasks : Dict OrchestratedTask)
    (queue : List OrchestratedTask) :
    List OrchestratedTask × List OrchestratedTask :=
  processQueueGo active_count cap active_tasks queue.length queue []

/-! ## Metrics (`_update_agent_metrics`) -/

/-- Association-list read of `self._agent_metrics`. -/
def metricsGet (metrics : List (AgentType × AgentMetrics)) (at_ : AgentType) :
    Option AgentMetrics :=
  match metrics with
  | [] => none
  | (k, m) :: rest => if k = at_ then some m else metricsGet rest at_

/-- Association-list write of `self._agent_metrics`. -/
def metricsSet (metrics : List (AgentType × AgentMetrics)) (at_ : AgentType)
    (m : AgentMetrics) : List (AgentType × AgentMetrics) :=
  match metrics with
  | [] => [(at_, m)]
  | (k, m') :: rest =>
    if k = at_ then (k, m) :: rest else (k, m') :: metricsSet rest at_ m

/-- `OrchestratorAgent._update_agent_metrics` (lines 584-609): increment
counters, incremental rolling mean, health score `min 1 (rate * 1.2)`.
A capability absent from the metrics map is ignored (early `return`). -/
def update_agent_metrics (metrics : List (AgentType × AgentMetrics))
    (agent_type : AgentType) (result : BaseAgentOutput) (now : Int) :
    List (AgentType × AgentMetrics) :=
  match metricsGet metrics agent_type with
  | none => metrics
  | some m =>
    let total := m.total_tasks + 1
    let successful := if result.success then m.successful_tasks + 1 else m.successful_tasks
    let failed := if result.success then m.failed_tasks else m.failed_tasks + 1
    let avg :=
      if total = 1 then result.processing_time
      else (m.avg_processing_time * ((total : Rat) - 1) + result.processing_time) / (total : Rat)
    let success_rate : Rat := (successful : Rat) / (total : Rat)
    let health := min 1 (success_rate * (6 / 5 : Rat))
    metricsSet metrics agent_type
      { m with
        total_tasks := total
        successful_tasks := successful
        failed_tasks := failed
        avg_processing_time := avg
        last_activity := some now
        health_score := health }

/-! ## Single-task dispatch (`_execute_single_task`) -/

/-- The `priority_map` dict of `_execute_single_task` (lines 418-424);
total over the enumeration, so the `.get(…, 5)` default is unreachable. -/
def priority_map : TaskPriority → Nat
  | .urgent => 10
  | .high => 8
  | .normal => 5
  | .low => 3
  | .background => 1

/-- The `AgentTask` record `_execute_single_task` builds for the worker
(lines 427-434). -/
def mk_agent_task (st : OrchestratorState) (task : OrchestratedTask) : AgentTask :=
  { task_id := task.task_id
    task_type := task.task_type
    input_data := task.input_data
    context := task.context
    priority := priority_map task.priority
    timeout_seconds := st.task_timeout }

/-- `OrchestratorAgent._execute_single_task` (lines 397-475).  Returns the
worker outcome, the task object after its in-place mutation, and the
updated orchestrator state.  The result type is `Except` to mirror that
the coroutine could in principle propagate an exception; the body shows it
never does: an absent agent is synthesized into a failed outcome, a worker
fault is caught by the `try`/`except` and converted into a failed outcome,
and the `finally` always removes the task from the active map. -/
def execute_single_task (registry : Registry) (now : Int)
    (st : OrchestratorState) (task : OrchestratedTask) :
    Except String (BaseAgentOutput × OrchestratedTask × OrchestratorState) :=
  match registry task.agent_type with
  | none =>
    .ok ({ success := false
           confidence_score := 0
           result_data := [("error", "Agent " ++ task.agent_type.value ++ " not found")]
           error_message := some ("Agent " ++ task.agent_type.value ++ " not found")
           processing_time := 0 },
         task, st)
  | some agent =>
    let agent_task := mk_agent_task st task
    let task₁ := { task with status := TaskStatus.running, started_at := some now }
    let st₁ := { st with active_tasks := dictSet st.active_tasks task₁.task_id task₁ }
    match agent agent_task with
    | .ok result =>
      let task₂ :=
        { task₁ with
          status := if result.success then TaskStatus.completed else TaskStatus.failed
          completed_at := some now
          result := some result }
      let st₂ :=
        { st₁ with
          agent_metrics := update_agent_metrics st₁.agent_metrics task₂.agent_type result now
          active_tasks := dictRemove st₁.active_tasks task₂.task_id }
      .ok (result, task₂, st₂)
    | .error e =>
      let task₂ :=
        { task₁ with
          status := TaskStatus.failed
          completed_at := some now
          last_error := some e
          result := some { success := false
                           confidence_score := 0
                           result_data := [("error", e)]
                           error_message := some e
                           processing_time := 0 } }
      let error_result : BaseAgentOutput :=
        { success := false
          confidence_score := 0
          result_data := [("error", e)]
          error_message := some e
          processing_time := 0 }
      let st₂ :=
        { st₁ with
          agent_metrics := update_agent_metrics st₁.agent_metrics task₂.agent_type error_result now
          active_tasks := dictRemove st₁.active_tasks task₂.task_id }
      .ok (error_result, task₂, st₂)

/-! ## Cancellation (`_cancel_task`) -/

/-- Result record of `_cancel_task`. -/
structure CancelResult where
  task_id : String
  status : String
  message : String
deriving DecidableEq, Repr

/-- The queue scan of `_cancel_task` (lines 667-675): pop the task with
the given id if queued, marking it cancelled. -/
def cancelScanQueue (task_id : String) :
    List OrchestratedTask → Option (OrchestratedTask × List OrchestratedTask)
  | [] => none
  | t :: rest =>
    if t.task_id = task_id then some ({ t with status := TaskStatus.cancelled }, rest)
    else
      match cancelScanQueue task_id rest with
      | some (t', rest') => some (t', t :: rest')
      | none => none

/-- `OrchestratorAgent._cancel_task` (lines 662-689): a queued task is
removed and marked cancelled; an active task only yields a
`"cancellation_requested"` reply (nothing is stored); otherwise
`"not_found"`. -/
def cancel_task (st : OrchestratorState) (task_id : String) :
    CancelResult × OrchestratorState :=
  match cancelScanQueue task_id st.task_queue with
  | some (_, rest) =>
    ({ task_id := task_id, status := "cancelled", message := "Task removed from queue" },
     { st with task_queue := rest })
  | none =>
    if dictContains st.active_tasks task_id then
      ({ task_id := task_id, status := "cancellation_requested"
         message := "Cancellation requested for active task" }, st)
    else
      ({ task_id := task_id, status := "not_found"
         message := "Task not found in queue or active tasks" }, st)

/-! ## Maintenance tick: workflow garbage collection (`_monitoring_loop`,
lines 707-716) -/

/-- The workflow cleanup step of `_monitoring_loop`: drop every stored
workflow whose status is COMPLETED or FAILED, whose `completed_at` is set
(a `None` timestamp is falsy and keeps the workflow), and whose
`completed_at` is before `now - 3600`. -/
def cleanup_workflows (now : Int) (workflows : Dict Workflow) : Dict Workflow :=
  let cutoff := now - 3600
  workflows.filter fun kv =>
    !((kv.2.status == WorkflowStatus.completed || kv.2.status == WorkflowStatus.failed) &&
      (match kv.2.completed_at with
       | none => false
       | some t => decide (t < cutoff)))

/-! ## Dependency levels (`_calculate_dependency_levels`,
`_calculate_task_level`) -/

/-- The `task_map = {t.task_id: t for t in all_tasks}` comprehension of
`_calculate_task_level` (line 573): on duplicate ids the later task wins,
hence the lookup scans from the right. -/
def taskMapGet (all_tasks : List OrchestratedTask) (dep_id : String) :
    Option OrchestratedTask :=
  match all_tasks with
  | [] => none
  | t :: rest =>
    match taskMapGet rest dep_id with
    | some u => some u
    | none => if t.task_id = dep_id then some t else none

/-- One iteration of the `for dep_id in task.dependencies` loop of
`_calculate_task_level` (lines 575-578): a dependency id absent from the
task map is skipped; otherwise its level is computed recursively
(`recur`, threading the memo) and folded into `max_dep_level`. -/
def dep_step (all_tasks : List OrchestratedTask)
    (recur : OrchestratedTask → Dict Nat → Option (Nat × Dict Nat)) :
    Option (Int × Dict Nat) → String → Option (Int × Dict Nat) :=
  fun acc dep_id =>
    match acc with
    | none => none
    | some (max_dep_level, m) =>
      match taskMapGet all_tasks dep_id with
      | none => some (max_dep_level, m)
      | some dep =>
        match recur dep m with
        | none => none
        | some (l, m') => some (max max_dep_level (l : Int), m')

/-- `OrchestratorAgent._calculate_task_level` (lines 562-582), memoized
recursion over the dependency graph.  `memo` is the Python `memo` dict;
consing a binding to the front together with first-match lookup reproduces
dict-assignment semantics.  `fuel` is a termination artifact: the Python
recursion has no guard, so on a cyclic graph it dies with a
`RecursionError` once the interpreter's recursion limit is hit — modelled
here by `none` once the fuel is exhausted; on an acyclic graph a fuel
larger than the dependency depth is never exhausted. -/
def calc_task_level (all_tasks : List OrchestratedTask) :
    Nat → OrchestratedTask → Dict Nat → Option (Nat × Dict Nat)
  | 0, _, _ => none
  | fuel + 1, task, memo =>
    match dictGet memo task.task_id with
    | some v => some (v, memo)
    | none =>
      if task.dependencies.isEmpty then some (0, (task.task_id, 0) :: memo)
      else
        match task.dependencies.foldl
            (dep_step all_tasks (calc_task_level all_tasks fuel))
            (some ((-1 : Int), memo)) with
        | none => none
        | some (max_dep_level, memo') =>
          let level := (max_dep_level + 1).toNat
          some (level, (task.task_id, level) :: memo')

/-- `levels[level].append(task)` preceded by `if level not in levels:
levels[level] = []` — append to the bucket of an insertion-ordered
integer-keyed dict. -/
def levelsAppend (levels : List (Nat × List OrchestratedTask)) (level : Nat)
    (task : OrchestratedTask) : List (Nat × List OrchestratedTask) :=
  match levels with
  | [] => [(level, [task])]
  | (k, ts) :: rest =>
    if k = level then (k, ts ++ [task]) :: rest
    else (k, ts) :: levelsAppend rest level task

/-- The per-task loop of `_calculate_dependency_levels` (lines 553-558),
threading the shared `task_levels` memo. -/
def calcLevelsGo (all_tasks : List OrchestratedTask) (fuel : Nat) :
    List OrchestratedTask → List (Nat × List OrchestratedTask) → Dict Nat →
    Option (List (Nat × List OrchestratedTask) × Dict Nat)
  | [], levels, memo => some (levels, memo)
  | t :: rest, levels, memo =>
    match calc_task_level all_tasks fuel t memo with
    | none => none
    | some (level, memo') => calcLevelsGo all_tasks fuel rest (levelsAppend levels level t) memo'

/-- `OrchestratorAgent._calculate_dependency_levels` (lines 548-560).
Besides the level buckets this also returns the final `task_levels` memo
(Python keeps it local); the memo is the per-task level assignment the
specification speaks about. -/
def calc_dependency_levels (all_tasks : List OrchestratedTask) (fuel : Nat) :
    Option (List (Nat × List OrchestratedTask) × Dict Nat) :=
  calcLevelsGo all_tasks fuel all_tasks [] []

/-! ## Workflow drivers (`_execute_sequential_workflow`,
`_execute_parallel_workflow`) -/

/-- Outcome of a workflow driver: the updated orchestrator state, the
workflow object after its in-place mutations, and `some e` when the
driver raised exception `e` (caught by `_execute_workflow`). -/
structure DriverResult where
  state : OrchestratorState
  workflow : Workflow
  error : Option String
deriving Repr

/-- `str(x)` for an `Optional[str]` (an f-string renders `None` as
`"None"`). -/
def strOfOptString : Option String → String
  | some s => s
  | none => "None"

/-- One step bookkeeping shared by both drivers: store the result in
`workflow.results`, and merge `result.result_data["context_updates"]`
into the shared context when the task succeeded and the key is present
(`_execute_sequential_workflow` lines 349-353,
`_execute_parallel_workflow` lines 391-395). -/
def recordResult (wf : Workflow) (task_id : String) (result : BaseAgentOutput) : Workflow :=
  let wf := { wf with results := dictSet wf.results task_id result }
  if result.success then
    match result.context_updates with
    | some updates => { wf with shared_context := dictUpdate wf.shared_context updates }
    | none => wf
  else wf

/-- `OrchestratorAgent._execute_sequential_workflow` (lines 340-357),
iterating the declared task order.  `done` holds the already-visited
prefix of `workflow.tasks` (the Python loop mutates the task objects in
place; here the updated objects are accumulated positionally).  Each
dispatched task reads the live shared context (`task.context` aliases
`workflow.shared_context` in Python).  A task whose dependencies are not
satisfied within the workflow is skipped (`continue`); under `fail_fast`
the first failed outcome raises. -/
def execute_sequential_workflow (registry : Registry) (now : Int) :
    OrchestratorState → Workflow → List OrchestratedTask → List OrchestratedTask →
    DriverResult
  | st, wf, done, [] => ⟨st, { wf with tasks := done.reverse }, none⟩
  | st, wf, done, task :: rest =>
    if !(check_task_dependencies st.active_tasks task (some wf)) then
      execute_sequential_workflow registry now st wf (task :: done) rest
    else
      match execute_single_task registry now st { task with context := wf.shared_context } with
      | .error e =>
        ⟨st, { wf with tasks := done.reverse ++ task :: rest }, some e⟩
      | .ok (result, task', st') =>
        let wf := recordResult wf task.task_id result
        if !result.success ∧ wf.error_strategy = "fail_fast" then
          ⟨st', { wf with tasks := done.reverse ++ task' :: rest },
           some ("Task " ++ task.task_id ++ " failed: " ++ strOfOptString result.error_message)⟩
        else
          execute_sequential_workflow registry now st' wf (task' :: done) rest

/-- The `asyncio.gather` of one parallel level (lines 369-373): the level
tasks all start from the shared context as it stood when the level began
(context updates are only merged after the join, lines 376-395), and the
linearized execution threads the orchestrator state left to right in
list order.  Every gather slot is an `Except`, mirroring
`return_exceptions=True`. -/
def gatherLevel (registry : Registry) (now : Int) (ctx : Dict String) :
    OrchestratorState → List OrchestratedTask →
    OrchestratorState × List (OrchestratedTask × Except String (BaseAgentOutput × OrchestratedTask))
  | st, [] => (st, [])
  | st, task :: rest =>
    match execute_single_task registry now st { task with context := ctx } with
    | .error e =>
      let (st', tail) := gatherLevel registry now ctx st rest
      (st', (task, .error e) :: tail)
    | .ok (result, task', st₁) =>
      let (st', tail) := gatherLevel registry now ctx st₁ rest
      (st', (task, .ok (result, task')) :: tail)

/-- Replace the (uuid-unique) task with the same id by its mutated
version — the pure rendering of Python's in-place object mutation for the
parallel driver. -/
def updateTaskList (tasks : List OrchestratedTask) (t' : OrchestratedTask) :
    List OrchestratedTask :=
  tasks.map fun u => if u.task_id = t'.task_id then t' else u

/-- The per-result processing loop of `_execute_parallel_workflow`
(lines 376-395): an exception slot stores a synthesized failed outcome and
under `fail_fast` re-raises it; a normal slot stores the outcome and
merges its context updates.  Returns the workflow and `some e` when the
loop raised. -/
def processLevelResults (wf : Workflow) :
    List (OrchestratedTask × Except String (BaseAgentOutput × OrchestratedTask)) →
    Workflow × Option String
  | [] => (wf, none)
  | (task, .error e) :: rest =>
    let error_result : BaseAgentOutput :=
      { success := false
        confidence_score := 0
        result_data := [("error", e)]
        error_message := some e
        processing_time := 0 }
    let wf := { wf with results := dictSet wf.results task.task_id error_result }
    if wf.error_strategy = "fail_fast" then (wf, some e)
    else processLevelResults wf rest
  | (task, .ok (result, task')) :: rest =>
    let wf := recordResult wf task.task_id result
    let wf := { wf with tasks := updateTaskList wf.tasks task' }
    processLevelResults wf rest

/-- Lookup in the integer-keyed level buckets (`dependency_levels[level]`). -/
def dictNatGet (levels : List (Nat × List OrchestratedTask)) (k : Nat) :
    Option (List OrchestratedTask) :=
  match levels with
  | [] => none
  | (k', ts) :: rest => if k' = k then some ts else dictNatGet rest k

/-- The level loop of `_execute_parallel_workflow` (lines 365-395),
iterating `sorted(dependency_levels.keys())` in ascending order; each
level is fully gathered (joined) before its results are processed and the
next level starts.  The returned trace lists, per level in execution
order, the ids of the tasks dispatched in that level. -/
def execParallelLevels (registry : Registry) (now : Int)
    (levels : List (Nat × List OrchestratedTask)) :
    OrchestratorState → Workflow → List Nat → List (List String) →
    OrchestratorState × Workflow × Option String × List (List String)
  | st, wf, [], trace => (st, wf, none, trace.reverse)
  | st, wf, key :: keys, trace =>
    let level_tasks := (dictNatGet levels key).getD []
    let (st', slots) := gatherLevel registry now wf.shared_context st level_tasks
    match processLevelResults wf slots with
    | (wf', some e) => (st', wf', some e, (trace.reverse ++ [level_tasks.map (·.task_id)]))
    | (wf', none) =>
      execParallelLevels registry now levels st' wf' keys
        (level_tasks.map (·.task_id) :: trace)

/-- `OrchestratorAgent._execute_parallel_workflow` (lines 359-395).
Returns additionally the dispatch trace (task ids grouped by level, in
the order the levels were executed). -/
def execute_parallel_workflow (registry : Registry) (now : Int)
    (st : OrchestratorState) (wf : Workflow) :
    OrchestratorState × Workflow × Option String × List (List String) :=
  match calc_dependency_levels wf.tasks (wf.tasks.length + 1) with
  | none =>
    -- Python: unbounded recursion on a cyclic graph ends in a
    -- `RecursionError`, which propagates out of the driver.
    (st, wf, some "maximum recursion depth exceeded", [])
  | some (levels, _) =>
    let keys := (levels.map (·.1)).insertionSort (· ≤ ·)
    execParallelLevels registry now levels st wf keys []

/-! ## `_execute_workflow` (lines 272-338) -/

/-- `WorkflowStatus.value`. -/
def WorkflowStatus.value : WorkflowStatus → String
  | .pending => "pending"
  | .running => "running"
  | .completed => "completed"
  | .failed => "failed"
  | .cancelled => "cancelled"
  | .paused => "paused"

/-- One `task_def` entry of a workflow definition (already
capability-typed; a string that is no `AgentType` member raises before
the workflow is even stored and is out of scope here).  `task_id` models
the `uuid4` the constructor would draw for this task. -/
structure WorkflowTaskDef where
  task_id : String
  task_type : String
  agent_type : AgentType
  input_data : Dict String := []
  priority : TaskPriority := .normal
  dependencies : List String := []
deriving DecidableEq, Repr

/-- The `workflow_data` request of `_execute_workflow`; `workflow_id`
models the `uuid4` drawn for the workflow. -/
structure WorkflowDef where
  workflow_id : String
  name : String
  description : Option String := none
  execution_strategy : String := "sequential"
  error_strategy : String := "fail_fast"
  context : Dict String := []
  tasks : List WorkflowTaskDef := []
deriving DecidableEq, Repr

/-- Task construction inside `_execute_workflow` (lines 295-305): each
definition entry becomes a pending `OrchestratedTask` whose context
aliases the workflow's shared context. -/
def buildWorkflowTask (wd : WorkflowDef) (td : WorkflowTaskDef) (now : Int) :
    OrchestratedTask :=
  { task_id := td.task_id
    parent_workflow_id := some wd.workflow_id
    task_type := td.task_type
    agent_type := td.agent_type
    input_data := td.input_data
    priority := td.priority
    dependencies := td.dependencies
    context := wd.context
    created_at := now }

/-- The summary dict `_execute_workflow` returns on success. -/
structure WorkflowSummary where
  workflow_id : String
  status : String
  completed_tasks : Nat
  total_tasks : Nat
  execution_time : Option Int
deriving DecidableEq, Repr

/-- The `Workflow` object `_execute_workflow` builds and stores
(lines 286-313), already marked running and stamped. -/
def built_workflow (wd : WorkflowDef) (now : Int) : Workflow :=
  { workflow_id := wd.workflow_id
    name := wd.name
    description := wd.description
    execution_strategy := wd.execution_strategy
    shared_context := wd.context
    error_strategy := wd.error_strategy
    created_at := now
    tasks := wd.tasks.map (buildWorkflowTask wd · now)
    status := WorkflowStatus.running
    started_at := some now }

/-- The `try` block of `_execute_workflow` (lines 315-321): dispatch on
the execution strategy; an unknown strategy raises a `ValueError`. -/
def run_strategy (registry : Registry) (now : Int)
    (st : OrchestratorState) (wf : Workflow) :
    OrchestratorState × Workflow × Option String :=
  if wf.execution_strategy = "sequential" then
    let r := execute_sequential_workflow registry now st wf [] wf.tasks
    (r.state, r.workflow, r.error)
  else if wf.execution_strategy = "parallel" then
    let (st', wf', err, _) := execute_parallel_workflow registry now st wf
    (st', wf', err)
  else
    (st, wf, some ("Unknown execution strategy: " ++ wf.execution_strategy))

/-- `OrchestratorAgent._execute_workflow` (lines 272-338): build and
store the workflow, mark it running, drive it per strategy, then mark it
completed (stamping `completed_at` and bumping the completed counter) or
— when the driver raised — failed (no `completed_at` stamp, failed
counter bumped, exception re-raised). -/
def execute_workflow (registry : Registry) (now : Int)
    (st : OrchestratorState) (wd : WorkflowDef) :
    OrchestratorState × Except String WorkflowSummary :=
  let wf : Workflow := built_workflow wd now
  let st := { st with total_workflows := st.total_workflows + 1 }
  match run_strategy registry now st wf with
  | (st', wf', none) =>
    let wf' := { wf' with status := WorkflowStatus.completed, completed_at := some now }
    let st' :=
      { st' with
        workflows := dictSet st'.workflows wf'.workflow_id wf'
        completed_workflows := st'.completed_workflows + 1 }
    (st', .ok { workflow_id := wf'.workflow_id
                status := wf'.status.value
                completed_tasks := wf'.results.length
                total_tasks := wf'.tasks.length
                execution_time := wf'.completed_at.map (· - now) })
  | (st', wf', some e) =>
    let wf' := { wf' with status := WorkflowStatus.failed }
    let st' :=
      { st' with
        workflows := dictSet st'.workflows wf'.workflow_id wf'
        failed_workflows := st'.failed_workflows + 1 }
    (st', .error e)

/-! ## Concrete fixtures used by the witness scenarios -/

/-- A worker that always succeeds. -/
def okAgent : Agent := fun _ =>
  .ok { success := true, confidence_score := 1, result_data := [], processing_time := 0 }

/-- A worker that always returns a failed outcome (no exception). -/
def failAgent : Agent := fun _ =>
  .ok { success := false, confidence_score := 0, result_data := []
        error_message := some "boom", processing_time := 0 }

/-- A worker whose `process` always raises. -/
def raisingAgent : Agent := fun _ => .error "kaboom"

/-- Registry fixture: email and schedule workers succeed, the content
worker returns failed outcomes, the knowledge worker raises; nothing is
registered for the orchestrator capability. -/
def regFix : Registry := fun a =>
  match a with
  | .email => some okAgent
  | .schedule => some okAgent
  | .content => some failAgent
  | .knowledge => some raisingAgent
  | .orchestrator => none

/-- The empty registry (no capability registered). -/
def regEmpty : Registry := fun _ => none

/-- §8 scenario: sequential fail-fast over A (succeeds), B (fails),
C (would succeed), no inter-task dependencies. -/
def wdSeqABC : WorkflowDef :=
  { workflow_id := "wf-seq", name := "seq-fail-fast"
    tasks := [ { task_id := "A", task_type := "t", agent_type := .email },
               { task_id := "B", task_type := "t", agent_type := .content },
               { task_id := "C", task_type := "t", agent_type := .schedule } ] }

/-- A sequential continue-on-error workflow with a single failing task. -/
def wdSeqContinue : WorkflowDef :=
  { workflow_id := "wf-cont", name := "seq-continue", error_strategy := "continue"
    tasks := [ { task_id := "F", task_type := "t", agent_type := .content } ] }

/-- A parallel fail-fast workflow: A fails at level 0, B depends on A
(level 1). -/
def wdParAB : WorkflowDef :=
  { workflow_id := "wf-par", name := "par-fail-fast", execution_strategy := "parallel"
    tasks := [ { task_id := "A", task_type := "t", agent_type := .content },
               { task_id := "B", task_type := "t", agent_type := .email
                 dependencies := ["A"] } ] }

/-- §8 leveling scenario: A (no deps), B (depends on A), C (no deps). -/
def taskA : OrchestratedTask := { task_id := "A", task_type := "t", agent_type := .email }

/-- Task B of the leveling scenario. -/
def taskB : OrchestratedTask :=
  { task_id := "B", task_type := "t", agent_type := .email, dependencies := ["A"] }

/-- Task C of the leveling scenario. -/
def taskC : OrchestratedTask := { task_id := "C", task_type := "t", agent_type := .schedule }

/-- §8 queue example: a Low-priority task. -/
def lowTask : OrchestratedTask :=
  { task_id := "L", task_type := "t", agent_type := .email, priority := .low }

/-- §8 queue example: an Urgent-priority task. -/
def urgentTask : OrchestratedTask :=
  { task_id := "U", task_type := "t", agent_type := .email, priority := .urgent }

/-- §8 queue example: a Normal-priority task. -/
def normalTask : OrchestratedTask :=
  { task_id := "N", task_type := "t", agent_type := .email, priority := .normal }

/-! ## Dictionary lemmas -/

theorem dictGet_dictSet_self {α : Type} (d : Dict α) (k : String) (v : α) :
    dictGet (dictSet d k v) k = some v := by
  induction d with
  | nil => simp [dictSet, dictGet]
  | cons kv rest ih =>
    obtain ⟨k', v'⟩ := kv
    by_cases h : k' = k <;> simp [dictSet, dictGet, h, ih]

theorem mem_dictSet {α : Type} {d : Dict α} {k : String} {v : α} {kv : String × α}
    (h : kv ∈ dictSet d k v) : kv = (k, v) ∨ kv ∈ d := by
  induction d with
  | nil => simpa [dictSet] using h
  | cons kv' rest ih =>
    obtain ⟨k', v'⟩ := kv'
    by_cases hk : k' = k
    · simp only [dictSet, if_pos hk] at h
      rcases List.mem_cons.mp h with h | h
      · subst hk; rcases h with rfl; left; rfl
      · right; exact List.mem_cons_of_mem _ h
    · simp only [dictSet, if_neg hk] at h
      rcases List.mem_cons.mp h with h | h
      · right; exact h ▸ List.mem_cons_self _ _
      · rcases ih h with h | h
        · left; exact h
        · right; exact List.mem_cons_of_mem _ h

theorem dictContains_dictSet_self {α : Type} (d : Dict α) (k : String) (v : α) :
    dictContains (dictSet d k v) k = true := by
  simp [dictContains, dictGet_dictSet_self]

theorem dictGet_dictSet_ne {α : Type} (d : Dict α) {k k' : String} (v : α)
    (h : k ≠ k') : dictGet (dictSet d k v) k' = dictGet d k' := by
  induction d with
  | nil => simp [dictSet, dictGet, h]
  | cons kv rest ih =>
    obtain ⟨k₀, v₀⟩ := kv
    by_cases h₀ : k₀ = k
    · subst h₀; simp [dictSet, dictGet, h, Ne.symm h, ih]
    · by_cases h₁ : k₀ = k' <;> simp [dictSet, dictGet, h₀, h₁, Ne.symm h, ih]

theorem dictContains_dictSet_of {α : Type} (d : Dict α) (k k' : String) (v : α)
    (h : dictContains d k' = true) : dictContains (dictSet d k v) k' = true := by
  by_cases hk : k = k'
  · subst hk; exact dictContains_dictSet_self d k v
  · simpa [dictContains, dictGet_dictSet_ne d v hk] using h

theorem dictGet_eq_none_of_not_mem_keys {α : Type} {d : Dict α} {k : String}
    (h : k ∉ d.map Prod.fst) : dictGet d k = none := by
  induction d with
  | nil => rfl
  | cons kv rest ih =>
    obtain ⟨k', v'⟩ := kv
    simp only [List.map_cons, List.mem_cons] at h
    push_neg at h
    simp [dictGet, Ne.symm h.1, ih h.2]

theorem mem_keys_dictSet {α : Type} {d : Dict α} {k x : String} {v : α}
    (h : x ∈ (dictSet d k v).map Prod.fst) : x = k ∨ x ∈ d.map Prod.fst := by
  induction d with
  | nil => simpa [dictSet] using h
  | cons kv rest ih =>
    obtain ⟨k₀, v₀⟩ := kv
    by_cases h₀ : k₀ = k
    · subst h₀
      rw [show dictSet ((k₀, v₀) :: rest) k₀ v = (k₀, v) :: rest from by simp [dictSet]] at h
      simp only [List.map_cons, List.mem_cons] at h ⊢
      tauto
    · simp only [dictSet, if_neg h₀, List.map_cons, List.mem_cons] at h ⊢
      rcases h with h1 | h1
      · tauto
      · rcases ih h1 with h2 | h2 <;> tauto

theorem keys_dictSet_nodup {α : Type} {d : Dict α} (k : String) (v : α)
    (h : (d.map Prod.fst).Nodup) : ((dictSet d k v).map Prod.fst).Nodup := by
  induction d with
  | nil => simp [dictSet]
  | cons kv rest ih =>
    obtain ⟨k₀, v₀⟩ := kv
    simp only [List.map_cons, List.nodup_cons] at h
    by_cases h₀ : k₀ = k
    · subst h₀
      simpa [dictSet] using h
    · simp only [dictSet, if_neg h₀, List.map_cons, List.nodup_cons]
      refine ⟨fun hmem => ?_, ih h.2⟩
      rcases mem_keys_dictSet hmem with rfl | hmem
      · exact h₀ rfl
      · exact h.1 hmem

theorem dictGet_dictRemove_self {α : Type} {d : Dict α} (k : String)
    (h : (d.map Prod.fst).Nodup) : dictGet (dictRemove d k) k = none := by
  induction d with
  | nil => rfl
  | cons kv rest ih =>
    obtain ⟨k₀, v₀⟩ := kv
    simp only [List.map_cons, List.nodup_cons] at h
    by_cases h₀ : k₀ = k
    · subst h₀
      simp only [dictRemove, if_pos rfl]
      exact dictGet_eq_none_of_not_mem_keys h.1
    · simp [dictRemove, dictGet, h₀, ih h.2]

theorem dictGet_filter_none {α : Type} {d : Dict α} {k : String} {wf : α}
    (p : String × α → Bool) (hnd : (d.map Prod.fst).Nodup)
    (hget : dictGet d k = some wf) (hp : p (k, wf) = false) :
    dictGet (d.filter p) k = none := by
  induction d with
  | nil => simp [dictGet] at hget
  | cons kv rest ih =>
    obtain ⟨k₀, v₀⟩ := kv
    simp only [List.map_cons, List.nodup_cons] at hnd
    by_cases h₀ : k₀ = k
    · subst h₀
      have hv : v₀ = wf := by simpa [dictGet] using hget
      subst hv
      have hfc : List.filter p ((k₀, v₀) :: rest) = List.filter p rest := by
        simp [List.filter_cons, hp]
      rw [hfc]
      apply dictGet_eq_none_of_not_mem_keys
      intro hmem
      apply hnd.1
      simp only [List.mem_map] at hmem ⊢
      obtain ⟨x, hx, hxk⟩ := hmem
      exact ⟨x, List.mem_of_mem_filter hx, hxk⟩
    · simp only [dictGet, if_neg h₀] at hget
      rw [List.filter_cons]
      cases hpk : p (k₀, v₀) with
      | true => simpa [dictGet, h₀] using ih hnd.2 hget
      | false => exact ih hnd.2 hget

instance {ε α : Type} [DecidableEq ε] [DecidableEq α] : DecidableEq (Except ε α) := fun a b =>
  match a, b with
  | .ok x, .ok y =>
    if h : x = y then isTrue (by rw [h]) else isFalse (by intro hc; cases hc; exact h rfl)
  | .error x, .error y =>
    if h : x = y then isTrue (by rw [h]) else isFalse (by intro hc; cases hc; exact h rfl)
  | .ok _, .error _ => isFalse (by intro hc; cases hc)
  | .error _, .ok _ => isFalse (by intro hc; cases hc)

/-! ## Behaviour of `_execute_single_task` -/

theorem recordResult_error_strategy (wf : Workflow) (id : String) (r : BaseAgentOutput) :
    (recordResult wf id r).error_strategy = wf.error_strategy := by
  obtain ⟨s, c, rd, cu, em, pt⟩ := r
  cases s <;> cases cu <;> rfl

theorem recordResult_results (wf : Workflow) (id : String) (r : BaseAgentOutput) :
    (recordResult wf id r).results = dictSet wf.results id r := by
  obtain ⟨s, c, rd, cu, em, pt⟩ := r
  cases s <;> cases cu <;> rfl

/-- Is an `Except` value a normal return? -/
def exceptIsOk {ε α : Type} : Except ε α → Bool
  | .ok _ => true
  | .error _ => false

/-- `_execute_single_task` never lets an exception escape: every branch —
missing agent, successful worker call, raising worker call — returns an
outcome (`Except.ok`). -/
theorem execute_single_task_isOk (registry : Registry) (now : Int)
    (st : OrchestratorState) (task : OrchestratedTask) :
    exceptIsOk (execute_single_task registry now st task) = true := by
  cases hreg : registry task.agent_type with
  | none => simp only [execute_single_task, hreg, exceptIsOk]
  | some agent =>
    cases hag : agent (mk_agent_task st task) with
    | ok result => simp only [execute_single_task, hreg, hag, exceptIsOk]
    | error e => simp only [execute_single_task, hreg, hag, exceptIsOk]

/-! ## Claim C5 -/

/-- C5 (confirmed): for the sequential fail-fast workflow over
A (succeeds), B (fails), C (would succeed), with no inter-task
dependencies, `_execute_workflow` leaves the stored workflow Failed, the
results map holds exactly A and B, and C is never dispatched (still
Pending, no start timestamp, no result); the call itself re-raises the
fail-fast error naming B. -/
theorem C5_sequential_failfast_ABC :
    ((execute_workflow regFix 0 {} wdSeqABC).2 = .error "Task B failed: boom") ∧
    ((execute_workflow regFix 0 {} wdSeqABC).1.workflows.map
       (fun kv => (kv.1, kv.2.status)) = [("wf-seq", WorkflowStatus.failed)]) ∧
    ((execute_workflow regFix 0 {} wdSeqABC).1.workflows.map
       (fun kv => kv.2.results.map Prod.fst) = [["A", "B"]]) ∧
    ((execute_workflow regFix 0 {} wdSeqABC).1.workflows.map
       (fun kv => kv.2.tasks.map (fun t => (t.task_id, t.status, t.started_at)))
      = [[("A", TaskStatus.completed, some 0), ("B", TaskStatus.failed, some 0),
          ("C", TaskStatus.pending, none)]]) := by
  exact ⟨by decide, by decide, by decide, by decide⟩

/-! ## Claim C3 -/

/-- C3 (counterexample): dispatching a task addressed to a capability
with no registered worker yields a Failed outcome whose error text is
`"Agent email not found"` — it does `not` cite "not registered" as the
claim states. -/
theorem C3_counterexample :
    (execute_single_task regEmpty 0 {}
        { task_id := "U", task_type := "t", agent_type := .email } =
      .ok ({ success := false, confidence_score := 0
             result_data := [("error", "Agent email not found")]
             error_message := some "Agent email not found", processing_time := 0 },
           { task_id := "U", task_type := "t", agent_type := .email }, {})) ∧
    containsSubstr "Agent email not found" "not registered" = false := by
  exact ⟨by decide, by decide⟩

/-- C3 (amended): dispatching to an unregistered capability returns —
without any exception escaping — a structured Failed outcome whose error
text is `"Agent <capability> not found"`, citing "not found" (not
"not registered"); queue, active set and the task itself are untouched. -/
theorem C3_amended_unregistered_not_found (registry : Registry) (now : Int)
    (st : OrchestratorState) (task : OrchestratedTask)
    (h : registry task.agent_type = none) :
    execute_single_task registry now st task =
      .ok ({ success := false, confidence_score := 0
             result_data := [("error", "Agent " ++ task.agent_type.value ++ " not found")]
             error_message := some ("Agent " ++ task.agent_type.value ++ " not found")
             processing_time := 0 }, task, st) ∧
    containsSubstr ("Agent " ++ task.agent_type.value ++ " not found") "not found" = true := by
  constructor
  · unfold execute_single_task
    rw [h]
  · cases hA : task.agent_type <;> decide

/-- Witness for `C3_amended_unregistered_not_found` at a concrete input. -/
theorem C3_amended_witness :
    (execute_single_task regEmpty 7 {}
        { task_id := "W", task_type := "t", agent_type := .schedule } =
      .ok ({ success := false, confidence_score := 0
             result_data := [("error", "Agent schedule not found")]
             error_message := some ("Agent schedule not found")
             processing_time := 0 },
           { task_id := "W", task_type := "t", agent_type := .schedule }, {})) ∧
    containsSubstr ("Agent " ++ AgentType.value .schedule ++ " not found") "not found" = true := by
  have h := C3_amended_unregistered_not_found regEmpty 7 {}
    { task_id := "W", task_type := "t", agent_type := .schedule } rfl
  exact ⟨h.1, h.2⟩

/-! ## Claim C9 -/

/-- C9 (confirmed): when the worker's `process` call raises, the fault is
converted into a structured Failed outcome (success `false`, the error
text recorded both in the outcome and on the task), the task ends Failed
and is removed from the active-task map, and the dispatcher returns the
outcome normally (`Except.ok` — nothing propagates to abort siblings or
the caller).  The `Nodup` hypothesis is the unique-key invariant every
Python dict satisfies by construction. -/
theorem C9_worker_fault_isolation (registry : Registry) (now : Int)
    (st : OrchestratorState) (task : OrchestratedTask) (agent : Agent) (e : String)
    (hnd : (st.active_tasks.map Prod.fst).Nodup)
    (hreg : registry task.agent_type = some agent)
    (hraise : agent (mk_agent_task st task) = .error e) :
    ∃ out task' st',
      execute_single_task registry now st task = .ok (out, task', st') ∧
      out.success = false ∧
      out.error_message = some e ∧
      task'.status = TaskStatus.failed ∧
      task'.last_error = some e ∧
      task'.result = some out ∧
      dictGet st'.active_tasks task.task_id = none := by
  simp only [execute_single_task, hreg, hraise]
  refine ⟨_, _, _, rfl, rfl, rfl, rfl, rfl, rfl, ?_⟩
  exact dictGet_dictRemove_self _ (keys_dictSet_nodup _ _ hnd)

/-- Witness for `C9_worker_fault_isolation`: the knowledge worker raises
`"kaboom"`. -/
theorem C9_witness :
    ∃ out task' st',
      execute_single_task regFix 0 {}
          { task_id := "K", task_type := "t", agent_type := .knowledge } =
        .ok (out, task', st') ∧
      out.success = false ∧
      out.error_message = some "kaboom" ∧
      task'.status = TaskStatus.failed ∧
      task'.last_error = some "kaboom" ∧
      task'.result = some out ∧
      dictGet st'.active_tasks "K" = none :=
  C9_worker_fault_isolation regFix 0 {}
    { task_id := "K", task_type := "t", agent_type := .knowledge }
    raisingAgent "kaboom" (by simp) rfl rfl

/-! ## Claim C10 -/

theorem cancelScanQueue_eq_none {task_id : String} :
    ∀ {queue : List OrchestratedTask}, (∀ t ∈ queue, t.task_id ≠ task_id) →
    cancelScanQueue task_id queue = none := by
  intro queue
  induction queue with
  | nil => intro _; rfl
  | cons t rest ih =>
    intro h
    have ht : t.task_id ≠ task_id := h t (List.mem_cons_self _ _)
    have hrest := ih fun u hu => h u (List.mem_cons_of_mem _ hu)
    simp [cancelScanQueue, ht, hrest]

/-- C10 (confirmed): cancelling a task that is in the active-task map
(and, per the dispatcher's ownership invariant, therefore not also still
queued) is a pure query: it answers `"cancellation_requested"`, records
no flag, and returns the orchestrator state bit-for-bit unchanged. -/
theorem C10_cancel_active_is_pure_query (st : OrchestratorState) (task_id : String)
    (hq : ∀ t ∈ st.task_queue, t.task_id ≠ task_id)
    (ha : dictContains st.active_tasks task_id = true) :
    cancel_task st task_id =
      ({ task_id := task_id, status := "cancellation_requested"
         message := "Cancellation requested for active task" }, st) := by
  unfold cancel_task
  rw [cancelScanQueue_eq_none hq]
  simp [ha]

/-- Witness for `C10_cancel_active_is_pure_query`: a state with one
active task `"X"` and an empty queue. -/
theorem C10_witness :
    cancel_task
        { active_tasks := [("X", { task_id := "X", task_type := "t", agent_type := .email })] }
        "X" =
      ({ task_id := "X", status := "cancellation_requested"
         message := "Cancellation requested for active task" },
       { active_tasks := [("X", { task_id := "X", task_type := "t", agent_type := .email })] }) :=
  C10_cancel_active_is_pure_query _ "X" (by intro t ht; cases ht) (by decide)

/-! ## Claim C1: counterexample -/

/-- C1 (counterexample): a sequential continue-on-error workflow with a
single failing task ends with status Completed even though its task
produced a failed outcome and finished with status Failed — refuting
"Completed only if every task reached Completed". -/
theorem C1_counterexample :
    ((execute_workflow regFix 0 {} wdSeqContinue).1.workflows.map
       (fun kv => (kv.1, kv.2.status)) = [("wf-cont", WorkflowStatus.completed)]) ∧
    ((execute_workflow regFix 0 {} wdSeqContinue).1.workflows.map
       (fun kv => kv.2.tasks.map (fun t => (t.task_id, t.status)))
      = [[("F", TaskStatus.failed)]]) ∧
    ((execute_workflow regFix 0 {} wdSeqContinue).1.workflows.map
       (fun kv => kv.2.results.map (fun r => (r.1, r.2.success)))
      = [[("F", false)]]) := by
  exact ⟨by decide, by decide, by decide⟩

/-! ## Claim C1: amended general theorem -/

theorem recordResult_workflow_id (wf : Workflow) (id : String) (r : BaseAgentOutput) :
    (recordResult wf id r).workflow_id = wf.workflow_id := by
  obtain ⟨s, c, rd, cu, em, pt⟩ := r
  cases s <;> cases cu <;> rfl

theorem seq_driver_workflow_id (registry : Registry) (now : Int) :
    ∀ (rest : List OrchestratedTask) (st : OrchestratorState) (wf : Workflow)
      (done : List OrchestratedTask),
      (execute_sequential_workflow registry now st wf done rest).workflow.workflow_id
        = wf.workflow_id := by
  intro rest
  induction rest with
  | nil => intro st wf done; rfl
  | cons t rest ih =>
    intro st wf done
    simp only [execute_sequential_workflow]
    cases hc : check_task_dependencies st.active_tasks t (some wf) with
    | false => simpa using ih st wf (t :: done)
    | true =>
      simp only [hc, Bool.not_true, Bool.false_eq_true, if_false]
      rcases hexec : execute_single_task registry now st { t with context := wf.shared_context }
        with e | ⟨result, task', st'⟩
      · rfl
      · simp only []
        split
        · exact recordResult_workflow_id wf t.task_id result
        · rw [ih st' (recordResult wf t.task_id result) (task' :: done)]
          exact recordResult_workflow_id wf t.task_id result

/-- Invariant of the sequential driver under fail-fast: if it returns
without raising, every recorded outcome was successful (the first failed
outcome raises immediately). -/
theorem seq_driver_all_success (registry : Registry) (now : Int) :
    ∀ (rest : List OrchestratedTask) (st : OrchestratorState) (wf : Workflow)
      (done : List OrchestratedTask),
      wf.error_strategy = "fail_fast" →
      (∀ kv ∈ wf.results, kv.2.success = true) →
      (execute_sequential_workflow registry now st wf done rest).error = none →
      ∀ kv ∈ (execute_sequential_workflow registry now st wf done rest).workflow.results,
        kv.2.success = true := by
  intro rest
  induction rest with
  | nil =>
    intro st wf done _ hinv _ kv hkv
    exact hinv kv (by simpa [execute_sequential_workflow] using hkv)
  | cons t rest ih =>
    intro st wf done hff hinv herr kv hkv
    simp only [execute_sequential_workflow] at herr hkv
    cases hc : check_task_dependencies st.active_tasks t (some wf) with
    | false =>
      rw [hc] at herr hkv
      simp only [Bool.not_false, if_true] at herr hkv
      exact ih st wf (t :: done) hff hinv herr kv hkv
    | true =>
      rw [hc] at herr hkv
      simp only [Bool.not_true, Bool.false_eq_true, if_false] at herr hkv
      rcases hexec : execute_single_task registry now st { t with context := wf.shared_context }
        with e | ⟨result, task', st'⟩
      · rw [hexec] at herr hkv
        simp at herr
      · rw [hexec] at herr hkv
        simp only [] at herr hkv
        cases hs : result.success with
        | false =>
          rw [hs] at herr
          simp only [Bool.not_false, recordResult_error_strategy, hff, true_and,
            if_pos rfl] at herr
          simp at herr
        | true =>
          rw [hs] at herr hkv
          simp only [Bool.not_true, Bool.false_eq_true, false_and, if_false] at herr hkv
          refine ih st' (recordResult wf t.task_id result) (task' :: done) ?_ ?_ herr kv hkv
          · rw [recordResult_error_strategy]; exact hff
          · intro kv' hkv'
            rw [recordResult_results] at hkv'
            rcases mem_dictSet hkv' with rfl | hkv'
            · exact hs
            · exact hinv kv' hkv'

theorem run_strategy_sequential (registry : Registry) (now : Int)
    (st : OrchestratorState) (wf : Workflow) (h : wf.execution_strategy = "sequential") :
    run_strategy registry now st wf =
      ((execute_sequential_workflow registry now st wf [] wf.tasks).state,
       (execute_sequential_workflow registry now st wf [] wf.tasks).workflow,
       (execute_sequential_workflow registry now st wf [] wf.tasks).error) := by
  unfold run_strategy
  rw [h]
  simp

theorem run_strategy_parallel (registry : Registry) (now : Int)
    (st : OrchestratorState) (wf : Workflow) (h : wf.execution_strategy = "parallel") :
    run_strategy registry now st wf =
      ((execute_parallel_workflow registry now st wf).1,
       (execute_parallel_workflow registry now st wf).2.1,
       (execute_parallel_workflow registry now st wf).2.2.1) := by
  unfold run_strategy
  rw [h]
  simp

theorem execute_workflow_workflows_none (registry : Registry) (now : Int)
    (st : OrchestratorState) (wd : WorkflowDef) (st' : OrchestratorState) (wf₂ : Workflow)
    (h : run_strategy registry now { st with total_workflows := st.total_workflows + 1 }
           (built_workflow wd now) = (st', wf₂, none)) :
    (execute_workflow registry now st wd).1.workflows
      = dictSet st'.workflows wf₂.workflow_id
          { wf₂ with status := WorkflowStatus.completed, completed_at := some now } := by
  unfold execute_workflow
  simp only [h]

theorem execute_workflow_workflows_some (registry : Registry) (now : Int)
    (st : OrchestratorState) (wd : WorkflowDef) (st' : OrchestratorState) (wf₂ : Workflow)
    (e : String)
    (h : run_strategy registry now { st with total_workflows := st.total_workflows + 1 }
           (built_workflow wd now) = (st', wf₂, some e)) :
    (execute_workflow registry now st wd).1.workflows
      = dictSet st'.workflows wf₂.workflow_id { wf₂ with status := WorkflowStatus.failed } := by
  unfold execute_workflow
  simp only [h]

/-- C1 (amended): under strategy `sequential` with error strategy
`fail_fast`, a workflow stored as Completed recorded only successful
outcomes — the first failed outcome would have raised and the workflow
would have been stored Failed.  (The unamended claim fails because
skipped tasks, continue-on-error failures and parallel-strategy failures
do not prevent Completed; see `C1_counterexample`.) -/
theorem C1_amended_seq_failfast_completed_all_success
    (registry : Registry) (now : Int) (st : OrchestratorState) (wd : WorkflowDef)
    (wf' : Workflow)
    (hstrat : wd.execution_strategy = "sequential")
    (hff : wd.error_strategy = "fail_fast")
    (hget : dictGet (execute_workflow registry now st wd).1.workflows wd.workflow_id
              = some wf')
    (hc : wf'.status = WorkflowStatus.completed) :
    ∀ kv ∈ wf'.results, kv.2.success = true := by
  have hstratB : (built_workflow wd now).execution_strategy = "sequential" := hstrat
  have hrs := run_strategy_sequential registry now
    { st with total_workflows := st.total_workflows + 1 } (built_workflow wd now) hstratB
  set r := execute_sequential_workflow registry now
    { st with total_workflows := st.total_workflows + 1 } (built_workflow wd now) []
    (built_workflow wd now).tasks with hr
  have hid : r.workflow.workflow_id = wd.workflow_id :=
    seq_driver_workflow_id registry now _ _ _ _
  cases herr : r.error with
  | some e =>
    rw [herr] at hrs
    have hw := execute_workflow_workflows_some registry now st wd r.state r.workflow e hrs
    rw [hw, hid, dictGet_dictSet_self] at hget
    have hwf := Option.some_inj.mp hget
    rw [← hwf] at hc
    simp at hc
  | none =>
    rw [herr] at hrs
    have hw := execute_workflow_workflows_none registry now st wd r.state r.workflow hrs
    rw [hw, hid, dictGet_dictSet_self] at hget
    have hwf := Option.some_inj.mp hget
    subst hwf
    intro kv hkv
    exact seq_driver_all_success registry now _ _ _ _ hff
      (by intro kv h; simp [built_workflow] at h) herr kv hkv

/-- A one-task sequential fail-fast workflow that completes. -/
def wdSeqOK : WorkflowDef :=
  { workflow_id := "wf-ok", name := "seq-ok"
    tasks := [ { task_id := "A", task_type := "t", agent_type := .email } ] }

/-- The stored workflow after running `wdSeqOK` (used by the C1 witness). -/
def wfSeqOKFinal : Workflow :=
  { workflow_id := "wf-ok", name := "seq-ok"
    tasks := [{ task_id := "A", parent_workflow_id := some "wf-ok", task_type := "t"
                agent_type := .email, status := TaskStatus.completed
                started_at := some 0, completed_at := some 0
                result := some { success := true, confidence_score := 1
                                 result_data := [], processing_time := 0 } }]
    execution_strategy := "sequential"
    status := WorkflowStatus.completed
    started_at := some 0, completed_at := some 0
    results := [("A", { success := true, confidence_score := 1
                        result_data := [], processing_time := 0 })] }

/-- Witness for `C1_amended_seq_failfast_completed_all_success` at the
concrete completing workflow `wdSeqOK`, instantiated at its only
recorded result (task A's outcome). -/
theorem C1_amended_witness :
    (("A", { success := true, confidence_score := 1, result_data := []
             processing_time := 0 : BaseAgentOutput }) :
        String × BaseAgentOutput).2.success = true :=
  C1_amended_seq_failfast_completed_all_success regFix 0 {} wdSeqOK wfSeqOKFinal
    rfl rfl (by decide) rfl
    ("A", { success := true, confidence_score := 1, result_data := []
            processing_time := 0 }) (by decide)

/-! ## Claim C2: counterexample -/

/-- C2 (counterexample): in the parallel fail-fast workflow where A
(level 0) yields a failed outcome and B (level 1) depends on A, the
workflow's final status is Completed — not Failed — and B, a
later-level task, is executed and recorded: the fail-fast branch of the
parallel driver reacts only to exceptions, which single-task execution
never lets escape. -/
theorem C2_counterexample :
    ((execute_workflow regFix 0 {} wdParAB).1.workflows.map
       (fun kv => (kv.1, kv.2.status)) = [("wf-par", WorkflowStatus.completed)]) ∧
    ((execute_workflow regFix 0 {} wdParAB).1.workflows.map
       (fun kv => kv.2.results.map (fun r => (r.1, r.2.success)))
      = [[("A", false), ("B", true)]]) := by
  exact ⟨by decide, by decide⟩

/-! ## Claim C4: counterexample -/

/-- C4 (counterexample): the workflow that failed (via the fail-fast
scenario) at time 0 has been terminal far longer than the one-hour
window at time 1000000, yet the maintenance tick's cleanup keeps it: its
`completed_at` was never stamped on the failure path, and the cleanup
predicate requires a stamped `completed_at`. -/
theorem C4_counterexample :
    ((cleanup_workflows 1000000 (execute_workflow regFix 0 {} wdSeqABC).1.workflows).map
       (fun kv => (kv.1, kv.2.status, kv.2.completed_at)))
      = [("wf-seq", WorkflowStatus.failed, none)] := by
  decide

/-! ## Claim C4: amended general theorem -/

theorem dictGet_filter_some {α : Type} {d : Dict α} {k : String} {v : α}
    (p : String × α → Bool) (hget : dictGet d k = some v) (hp : p (k, v) = true) :
    dictGet (d.filter p) k = some v := by
  induction d with
  | nil => simp [dictGet] at hget
  | cons kv rest ih =>
    obtain ⟨k₀, v₀⟩ := kv
    by_cases h₀ : k₀ = k
    · subst h₀
      have hv : v₀ = v := by simpa [dictGet] using hget
      subst hv
      rw [List.filter_cons, if_pos hp]
      simp [dictGet]
    · simp only [dictGet, if_neg h₀] at hget
      rw [List.filter_cons]
      cases hpk : p (k₀, v₀) with
      | true => simpa [dictGet, h₀] using ih hget
      | false => exact ih hget

theorem processLevelResults_workflow_id (wf : Workflow)
    (slots : List (OrchestratedTask × Except String (BaseAgentOutput × OrchestratedTask))) :
    (processLevelResults wf slots).1.workflow_id = wf.workflow_id := by
  induction slots generalizing wf with
  | nil => rfl
  | cons s rest ih =>
    obtain ⟨task, res⟩ := s
    cases res with
    | error e =>
      simp only [processLevelResults]
      split
      · rfl
      · exact ih _
    | ok pr =>
      obtain ⟨result, task'⟩ := pr
      simp only [processLevelResults]
      rw [ih]
      exact recordResult_workflow_id wf task.task_id result

theorem execParallelLevels_workflow_id (registry : Registry) (now : Int)
    (levels : List (Nat × List OrchestratedTask)) :
    ∀ (keys : List Nat) (st : OrchestratorState) (wf : Workflow) (trace : List (List String)),
      (execParallelLevels registry now levels st wf keys trace).2.1.workflow_id
        = wf.workflow_id := by
  intro keys
  induction keys with
  | nil => intro st wf trace; rfl
  | cons key rest ih =>
    intro st wf trace
    simp only [execParallelLevels]
    rcases hg : gatherLevel registry now wf.shared_context st
      ((dictNatGet levels key).getD []) with ⟨st', slots⟩
    rcases hp : processLevelResults wf slots with ⟨wf₁, err⟩
    have hid : wf₁.workflow_id = wf.workflow_id := by
      have : wf₁ = (processLevelResults wf slots).1 := by rw [hp]
      rw [this, processLevelResults_workflow_id]
    cases err with
    | some e => simpa using hid
    | none => simpa [ih] using hid

theorem execute_parallel_workflow_workflow_id (registry : Registry) (now : Int)
    (st : OrchestratorState) (wf : Workflow) :
    (execute_parallel_workflow registry now st wf).2.1.workflow_id = wf.workflow_id := by
  unfold execute_parallel_workflow
  cases hlv : calc_dependency_levels wf.tasks (wf.tasks.length + 1) with
  | none => rfl
  | some p => exact execParallelLevels_workflow_id registry now p.1 _ _ _ _

theorem run_strategy_workflow_id (registry : Registry) (now : Int)
    (st : OrchestratorState) (wf : Workflow) :
    (run_strategy registry now st wf).2.1.workflow_id = wf.workflow_id := by
  unfold run_strategy
  split
  · exact seq_driver_workflow_id registry now _ _ _ _
  · split
    · exact execute_parallel_workflow_workflow_id registry now st wf
    · rfl

/-- The cleanup predicate, spelt as a proposition. -/
theorem cleanup_keeps_iff (now : Int) (w : Workflow) :
    (!((w.status == WorkflowStatus.completed || w.status == WorkflowStatus.failed) &&
       (match w.completed_at with
        | none => false
        | some t => decide (t < now - 3600)))) = true ↔
    ¬((w.status = WorkflowStatus.completed ∨ w.status = WorkflowStatus.failed) ∧
      ∃ t, w.completed_at = some t ∧ t < now - 3600) := by
  cases hco : w.completed_at with
  | none => simp [hco]
  | some t =>
    simp only [hco, Bool.not_eq_true', Bool.and_eq_false_iff, Bool.or_eq_true, beq_iff_eq,
      decide_eq_true_eq]
    simp [hco]
    tauto

/-- C4 (amended): the maintenance tick's cleanup keeps exactly the
workflows that are not (terminal with a stamped `completed_at` older
than one hour); a workflow completed through `execute_workflow` at time
`t0` — whose `completed_at` is stamped `t0` — is removed by any later
tick once `t0` is older than the window; but any stored workflow with an
unstamped `completed_at` (as every workflow failed through
`execute_workflow` is, see `C4_counterexample`) survives every tick. -/
theorem C4_amended_gc :
    (∀ (now : Int) (ws : Dict Workflow) (kv : String × Workflow),
       kv ∈ cleanup_workflows now ws ↔
         kv ∈ ws ∧
         ¬((kv.2.status = WorkflowStatus.completed ∨ kv.2.status = WorkflowStatus.failed) ∧
           ∃ t, kv.2.completed_at = some t ∧ t < now - 3600)) ∧
    (∀ (registry : Registry) (t0 : Int) (st : OrchestratorState) (wd : WorkflowDef)
       (wf' : Workflow) (now : Int),
       (((execute_workflow registry t0 st wd).1.workflows.map Prod.fst).Nodup) →
       dictGet (execute_workflow registry t0 st wd).1.workflows wd.workflow_id = some wf' →
       wf'.status = WorkflowStatus.completed →
       t0 < now - 3600 →
       dictGet (cleanup_workflows now (execute_workflow registry t0 st wd).1.workflows)
         wd.workflow_id = none) ∧
    (∀ (now : Int) (ws : Dict Workflow) (k : String) (w : Workflow),
       dictGet ws k = some w → w.completed_at = none →
       dictGet (cleanup_workflows now ws) k = some w) := by
  refine ⟨?_, ?_, ?_⟩
  · intro now ws kv
    unfold cleanup_workflows
    rw [List.mem_filter]
    exact and_congr_right fun _ => cleanup_keeps_iff now kv.2
  · intro registry t0 st wd wf' now hnd hget hc ht
    -- identify the stored workflow: it came from the no-error branch of
    -- `execute_workflow`, so its `completed_at` is stamped `t0`
    have hstamp : wf'.completed_at = some t0 := by
      rcases hrs : run_strategy registry t0
          { st with total_workflows := st.total_workflows + 1 } (built_workflow wd t0)
        with ⟨st2, wf2, err⟩
      have hkid : wf2.workflow_id = wd.workflow_id := by
        have h1 : wf2 = (run_strategy registry t0
            { st with total_workflows := st.total_workflows + 1 }
            (built_workflow wd t0)).2.1 := by rw [hrs]
        rw [h1, run_strategy_workflow_id]
        rfl
      cases err with
      | none =>
        have hw := execute_workflow_workflows_none registry t0 st wd st2 wf2 hrs
        rw [hw, hkid, dictGet_dictSet_self] at hget
        have := Option.some_inj.mp hget
        rw [← this]
      | some e =>
        have hw := execute_workflow_workflows_some registry t0 st wd st2 wf2 e hrs
        rw [hw, hkid, dictGet_dictSet_self] at hget
        have := Option.some_inj.mp hget
        rw [← this] at hc
        simp at hc
    unfold cleanup_workflows
    apply dictGet_filter_none _ hnd hget
    simp [hc, hstamp, ht]
  · intro now ws k w hget hnone
    unfold cleanup_workflows
    apply dictGet_filter_some _ hget
    simp [hnone]

/-- Witness for `C4_amended_gc`: the workflow completed at time 0 via
`wdSeqOK` is gone from the store after a tick at time 10000. -/
theorem C4_amended_witness :
    dictGet (cleanup_workflows 10000 (execute_workflow regFix 0 {} wdSeqOK).1.workflows)
      "wf-ok" = none :=
  C4_amended_gc.2.1 regFix 0 {} wdSeqOK wfSeqOKFinal 10000
    (by decide) (by decide) rfl (by decide)

/-! ## Claim C6 -/

/-- Specification of the insertion point: the first index whose queued
task has a strictly lower-urgency priority (strictly greater priority
numeral) than the new task; the queue length when there is none. -/
def firstLowerIdx (tp : Nat) : List OrchestratedTask → Nat
  | [] => 0
  | q :: rest => if tp < priority_order q.priority then 0 else firstLowerIdx tp rest + 1

theorem enqueueScan_eq (tp : Nat) :
    ∀ (queue : List OrchestratedTask) (i : Nat),
      enqueueScan tp queue i i = i + firstLowerIdx tp queue := by
  intro queue
  induction queue with
  | nil => intro i; simp [enqueueScan, firstLowerIdx]
  | cons q rest ih =>
    intro i
    by_cases h : tp < priority_order q.priority
    · simp [enqueueScan, firstLowerIdx, h]
    · simp only [enqueueScan, firstLowerIdx, if_neg h]
      rw [ih (i + 1)]
      omega

theorem listInsert_length {α : Type} (idx : Nat) (x : α) (l : List α) :
    (listInsert idx x l).length = l.length + 1 := by
  simp [listInsert]
  omega

theorem firstLowerIdx_le_length (tp : Nat) :
    ∀ queue : List OrchestratedTask, firstLowerIdx tp queue ≤ queue.length := by
  intro queue
  induction queue with
  | nil => simp [firstLowerIdx]
  | cons q rest ih =>
    by_cases h : tp < priority_order q.priority <;>
      simp [firstLowerIdx, h, Nat.succ_le_succ ih]

theorem firstLowerIdx_before (tp : Nat) :
    ∀ (queue : List OrchestratedTask) (j : Nat), j < firstLowerIdx tp queue →
      ∀ q, queue.get? j = some q → priority_order q.priority ≤ tp := by
  intro queue
  induction queue with
  | nil => intro j hj; simp [firstLowerIdx] at hj
  | cons q rest ih =>
    intro j hj q' hq'
    by_cases h : tp < priority_order q.priority
    · simp [firstLowerIdx, h] at hj
    · simp only [firstLowerIdx, if_neg h] at hj
      cases j with
      | zero =>
        simp only [List.get?] at hq'
        cases hq'
        omega
      | succ j =>
        exact ih j (by omega) q' hq'

theorem firstLowerIdx_at (tp : Nat) :
    ∀ (queue : List OrchestratedTask) (q : OrchestratedTask),
      queue.get? (firstLowerIdx tp queue) = some q →
      tp < priority_order q.priority := by
  intro queue
  induction queue with
  | nil => intro q hq; simp at hq
  | cons q rest ih =>
    intro q' hq'
    by_cases h : tp < priority_order q.priority
    · simp only [firstLowerIdx, if_pos h, List.get?] at hq'
      cases hq'
      exact h
    · simp only [firstLowerIdx, if_neg h, List.get?] at hq'
      exact ih q' hq'

/-- C6 (confirmed): `_enqueue_task` always succeeds (one element longer,
no reordering of the rest) and inserts the new task exactly at the first
queue position whose existing priority is not strictly higher — i.e.
after every queued task of strictly higher or equal urgency (which is
what keeps insertion order among equal priorities) and before the first
queued task of strictly lower urgency, under the five-level numeral
order urgent(1) < high(2) < normal(3) < low(4) < background(5); and the
§8 example: enqueueing Low, Urgent, Normal into an empty queue yields
the queue [Urgent, Normal, Low], which drains in that order. -/
theorem C6_enqueue_stable_priority_insert :
    (∀ (queue : List OrchestratedTask) (task : OrchestratedTask),
      (enqueue_task queue task).length = queue.length + 1 ∧
      enqueue_task queue task =
        queue.take (firstLowerIdx (priority_order task.priority) queue) ++
          task :: queue.drop (firstLowerIdx (priority_order task.priority) queue) ∧
      (∀ j, j < firstLowerIdx (priority_order task.priority) queue →
        ∀ q, queue.get? j = some q →
          priority_order q.priority ≤ priority_order task.priority) ∧
      (∀ q, queue.get? (firstLowerIdx (priority_order task.priority) queue) = some q →
        priority_order task.priority < priority_order q.priority)) ∧
    (enqueue_task (enqueue_task (enqueue_task [] lowTask) urgentTask) normalTask
      = [urgentTask, normalTask, lowTask]) ∧
    (process_queue 0 10 [] [urgentTask, normalTask, lowTask]
      = ([], [urgentTask, normalTask, lowTask])) := by
  refine ⟨?_, by decide, by decide⟩
  intro queue task
  have hscan : enqueueScan (priority_order task.priority) queue 0 0
      = firstLowerIdx (priority_order task.priority) queue := by
    simpa using enqueueScan_eq (priority_order task.priority) queue 0
  refine ⟨listInsert_length _ _ _, ?_, firstLowerIdx_before _ queue, firstLowerIdx_at _ queue⟩
  unfold enqueue_task
  rw [hscan]
  rfl

/-- Witness for `C6_enqueue_stable_priority_insert`'s quantified part at
the concrete queue [Urgent, Low] with a Normal task: the task before the
insertion point (Urgent) is at least as urgent, the one at it (Low) is
strictly less urgent. -/
theorem C6_witness :
    (priority_order urgentTask.priority ≤ priority_order normalTask.priority) ∧
    (priority_order normalTask.priority < priority_order lowTask.priority) :=
  ⟨(C6_enqueue_stable_priority_insert.1 [urgentTask, lowTask] normalTask).2.2.1 0
      (by decide) urgentTask rfl,
   (C6_enqueue_stable_priority_insert.1 [urgentTask, lowTask] normalTask).2.2.2 lowTask rfl⟩

/-! ## Claim C7 -/

/-- A task that passes the ad-hoc dependency check has no dependency id
in the active-task map. -/
theorem check_true_no_active_dep (active : Dict OrchestratedTask)
    (t : OrchestratedTask)
    (h : check_task_dependencies active t none = true) :
    ∀ d ∈ t.dependencies, dictContains active d = false := by
  intro d hd
  unfold check_task_dependencies at h
  by_cases he : t.dependencies.isEmpty
  · rw [List.isEmpty_iff] at he
    rw [he] at hd
    cases hd
  · rw [if_neg he] at h
    have := List.all_eq_true.mp h d hd
    simpa using this

theorem scanReady_spec (active : Dict OrchestratedTask) :
    ∀ queue : List OrchestratedTask,
      (scanReady active queue = none →
        ∀ t ∈ queue, check_task_dependencies active t none = false) ∧
      (∀ t rest, scanReady active queue = some (t, rest) →
        ∃ i, queue.get? i = some t ∧
          check_task_dependencies active t none = true ∧
          (∀ j, j < i → ∀ q, queue.get? j = some q →
            check_task_dependencies active q none = false) ∧
          rest = queue.eraseIdx i) := by
  intro queue
  induction queue with
  | nil =>
    refine ⟨fun _ t ht => absurd ht (List.not_mem_nil t), fun t rest h => ?_⟩
    simp [scanReady] at h
  | cons q queue ih =>
    cases hc : check_task_dependencies active q none with
    | true =>
      constructor
      · intro h
        simp [scanReady, hc] at h
      · intro t rest h
        simp only [scanReady, hc, if_pos] at h
        obtain ⟨rfl, rfl⟩ := Prod.mk.injEq .. ▸ Option.some_inj.mp h
        exact ⟨0, rfl, hc, fun j hj => absurd hj (Nat.not_lt_zero j), rfl⟩
    | false =>
      constructor
      · intro h t ht
        simp only [scanReady, hc, Bool.false_eq_true, if_false] at h
        rcases List.mem_cons.mp ht with rfl | ht
        · exact hc
        · rcases hs : scanReady active queue with _ | ⟨t', rest'⟩
          · exact ih.1 hs t ht
          · rw [hs] at h; cases h
      · intro t rest h
        simp only [scanReady, hc, Bool.false_eq_true, if_false] at h
        rcases hs : scanReady active queue with _ | ⟨t', rest'⟩
        · rw [hs] at h; cases h
        · rw [hs] at h
          obtain ⟨rfl, rfl⟩ := Prod.mk.injEq .. ▸ Option.some_inj.mp h
          obtain ⟨i, hget, hchk, hbefore, herase⟩ := ih.2 t' rest' hs
          refine ⟨i + 1, hget, hchk, ?_, by simp [List.eraseIdx, herase]⟩
          intro j hj q' hq'
          cases j with
          | zero =>
            simp only [List.get?] at hq'
            cases hq'
            exact hc
          | succ j => exact hbefore j (by omega) q' hq'

theorem scanReady_length (active : Dict OrchestratedTask)
    {queue rest : List OrchestratedTask} {t : OrchestratedTask}
    (h : scanReady active queue = some (t, rest)) :
    queue.length = rest.length + 1 := by
  obtain ⟨i, hget, _, _, herase⟩ := (scanReady_spec active queue).2 t rest h
  have hi : i < queue.length := List.get?_eq_some.mp hget |>.1
  rw [herase, List.length_eraseIdx_add_one hi]

theorem processQueueGo_acc (count cap : Nat) (active : Dict OrchestratedTask) :
    ∀ (fuel : Nat) (queue acc : List OrchestratedTask),
      processQueueGo count cap active fuel queue acc =
        ((processQueueGo count cap active fuel queue []).1,
         acc.reverse ++ (processQueueGo count cap active fuel queue []).2) := by
  intro fuel
  induction fuel with
  | zero => intro queue acc; simp [processQueueGo]
  | succ fuel ih =>
    intro queue acc
    by_cases hcond : count < cap ∧ queue ≠ []
    · simp only [processQueueGo, if_pos hcond]
      rcases hs : scanReady active queue with _ | ⟨t, rest⟩
      · simp
      · dsimp only
        rw [ih rest (t :: acc), ih rest [t]]
        simp
    · simp only [processQueueGo, if_neg hcond]
      simp

theorem processQueueGo_safety (count cap : Nat) (active : Dict OrchestratedTask) :
    ∀ (fuel : Nat) (queue : List OrchestratedTask) (t : OrchestratedTask),
      t ∈ (processQueueGo count cap active fuel queue []).2 →
      ∀ d ∈ t.dependencies, dictContains active d = false := by
  intro fuel
  induction fuel with
  | zero => intro queue t ht; simp [processQueueGo] at ht
  | succ fuel ih =>
    intro queue t ht
    by_cases hcond : count < cap ∧ queue ≠ []
    · simp only [processQueueGo, if_pos hcond] at ht
      rcases hs : scanReady active queue with _ | ⟨t', rest⟩
      · rw [hs] at ht; simp at ht
      · rw [hs] at ht
        dsimp only at ht
        rw [processQueueGo_acc count cap active fuel rest [t']] at ht
        simp only [List.reverse_cons, List.reverse_nil, List.nil_append,
          List.singleton_append, List.mem_cons] at ht
        rcases ht with rfl | ht
        · obtain ⟨_, _, hchk, _, _⟩ := (scanReady_spec active queue).2 t rest hs
          exact check_true_no_active_dep active t hchk
        · exact ih rest t ht
    · simp only [processQueueGo, if_neg hcond] at ht
      simp at ht

/-- C7 (confirmed): one drain pass of `_process_queue` (i) never
dispatches a task that has a dependency id still present in the
active-task map; (ii) dispatches nothing when the concurrency cap is
reached; (iii) dispatches nothing and leaves the queue untouched when no
queued task is ready; (iv) when below the cap, removes and dispatches
first exactly the head-most ready task and continues on the remaining
queue; and (v) the scan indeed selects the first queued task whose
dependencies are all satisfied. -/
theorem C7_drain_never_dispatches_blocked :
    (∀ (count cap : Nat) (active : Dict OrchestratedTask)
       (queue : List OrchestratedTask) (t : OrchestratedTask),
       t ∈ (process_queue count cap active queue).2 →
       ∀ d ∈ t.dependencies, dictContains active d = false) ∧
    (∀ (count cap : Nat) (active : Dict OrchestratedTask)
       (queue : List OrchestratedTask), ¬(count < cap) →
       process_queue count cap active queue = (queue, [])) ∧
    (∀ (count cap : Nat) (active : Dict OrchestratedTask)
       (queue : List OrchestratedTask),
       (∀ t ∈ queue, check_task_dependencies active t none = false) →
       process_queue count cap active queue = (queue, [])) ∧
    (∀ (count cap : Nat) (active : Dict OrchestratedTask)
       (queue rest : List OrchestratedTask) (t : OrchestratedTask),
       count < cap → scanReady active queue = some (t, rest) →
       process_queue count cap active queue =
         ((process_queue count cap active rest).1,
          t :: (process_queue count cap active rest).2)) ∧
    (∀ (active : Dict OrchestratedTask) (queue rest : List OrchestratedTask)
       (t : OrchestratedTask),
       scanReady active queue = some (t, rest) →
       ∃ i, queue.get? i = some t ∧
         check_task_dependencies active t none = true ∧
         (∀ j, j < i → ∀ q, queue.get? j = some q →
           check_task_dependencies active q none = false) ∧
         rest = queue.eraseIdx i) := by
  refine ⟨?_, ?_, ?_, ?_, ?_⟩
  · intro count cap active queue t ht
    exact processQueueGo_safety count cap active queue.length queue t ht
  · intro count cap active queue hcap
    cases queue with
    | nil => rfl
    | cons q rest =>
      simp only [process_queue, processQueueGo]
      rw [if_neg (by simp [hcap])]
      rfl
  · intro count cap active queue hnone
    have hs : scanReady active queue = none := by
      rcases hs : scanReady active queue with _ | ⟨t, rest⟩
      · rfl
      · obtain ⟨i, hget, hchk, _, _⟩ := (scanReady_spec active queue).2 t rest hs
        have ht : t ∈ queue := List.get?_mem hget
        rw [hnone t ht] at hchk
        cases hchk
    cases queue with
    | nil => rfl
    | cons q rest =>
      simp only [process_queue, processQueueGo]
      by_cases hcond : count < cap ∧ q :: rest ≠ []
      · rw [if_pos hcond, hs]
        rfl
      · rw [if_neg hcond]
        rfl
  · intro count cap active queue rest t hcap hs
    have hlen : queue.length = rest.length + 1 := scanReady_length active hs
    have hne : queue ≠ [] := by
      intro h; rw [h] at hs; simp [scanReady] at hs
    simp only [process_queue, hlen, processQueueGo, if_pos (And.intro hcap hne), hs]
    rw [processQueueGo_acc count cap active rest.length rest [t]]
    simp
  · intro active queue rest t hs
    exact (scanReady_spec active queue).2 t rest hs

/-- A queued task depending on the (active) task "A". -/
def taskDepA : OrchestratedTask :=
  { task_id := "D", task_type := "t", agent_type := .email, dependencies := ["A"] }

/-- A dispatchable task depending on the inactive id "F". -/
def taskDepF : OrchestratedTask :=
  { task_id := "E", task_type := "t", agent_type := .email, dependencies := ["F"] }

/-- Witness for `C7_drain_never_dispatches_blocked` at concrete states:
the dispatched task `taskDepF`'s dependency "F" is not active, and with
`taskDepA` blocked behind the active "A", the pass takes the later but
ready `normalTask` first. -/
theorem C7_witness :
    dictContains [("A", taskA)] "F" = false ∧
    process_queue 0 10 [("A", taskA)] [taskDepA, normalTask]
      = ((process_queue 0 10 [("A", taskA)] [taskDepA]).1,
         normalTask :: (process_queue 0 10 [("A", taskA)] [taskDepA]).2) :=
  ⟨C7_drain_never_dispatches_blocked.1 0 10 [("A", taskA)] [taskDepF] taskDepF
      (by decide) "F" (by decide),
   C7_drain_never_dispatches_blocked.2.2.2.1 0 10 [("A", taskA)] [taskDepA, normalTask]
      [taskDepA] normalTask (by decide) (by decide)⟩

/-! ## Claim C2: amended general theorem -/

theorem gatherLevel_slots (registry : Registry) (now : Int) (ctx : Dict String) :
    ∀ (tasks : List OrchestratedTask) (st : OrchestratorState),
      ((gatherLevel registry now ctx st tasks).2.map (·.1) = tasks) ∧
      (∀ s ∈ (gatherLevel registry now ctx st tasks).2, exceptIsOk s.2 = true) := by
  intro tasks
  induction tasks with
  | nil => intro st; exact ⟨rfl, fun s hs => absurd hs (List.not_mem_nil s)⟩
  | cons task rest ih =>
    intro st
    have hok := execute_single_task_isOk registry now st { task with context := ctx }
    rcases hexec : execute_single_task registry now st { task with context := ctx }
      with e | ⟨result, task', st₁⟩
    · rw [hexec] at hok; cases hok
    · simp only [gatherLevel, hexec]
      rcases hg : gatherLevel registry now ctx st₁ rest with ⟨st', tail⟩
      have := ih st₁
      rw [hg] at this
      refine ⟨by simpa using this.1, ?_⟩
      intro s hs
      rcases List.mem_cons.mp hs with rfl | hs
      · rfl
      · exact this.2 s hs

theorem processLevelResults_all_ok (wf : Workflow)
    (slots : List (OrchestratedTask × Except String (BaseAgentOutput × OrchestratedTask)))
    (hok : ∀ s ∈ slots, exceptIsOk s.2 = true) :
    (processLevelResults wf slots).2 = none ∧
    (∀ id, dictContains wf.results id = true →
      dictContains (processLevelResults wf slots).1.results id = true) ∧
    (∀ s ∈ slots, dictContains (processLevelResults wf slots).1.results s.1.task_id = true) := by
  induction slots generalizing wf with
  | nil => exact ⟨rfl, fun id h => h, fun s hs => absurd hs (List.not_mem_nil s)⟩
  | cons s rest ih =>
    obtain ⟨task, res⟩ := s
    cases res with
    | error e =>
      have := hok (task, .error e) (List.mem_cons_self _ _)
      cases this
    | ok pr =>
      obtain ⟨result, task'⟩ := pr
      simp only [processLevelResults]
      set wf₁ : Workflow :=
        { recordResult wf task.task_id result with
          tasks := updateTaskList (recordResult wf task.task_id result).tasks task' } with hwf₁
      have hres₁ : wf₁.results = dictSet wf.results task.task_id result := by
        rw [hwf₁]
        simpa using recordResult_results wf task.task_id result
      have hrest := ih wf₁ (fun s hs => hok s (List.mem_cons_of_mem _ hs))
      refine ⟨hrest.1, ?_, ?_⟩
      · intro id h
        refine hrest.2.1 id ?_
        rw [hres₁]
        exact dictContains_dictSet_of _ _ _ _ h
      · intro s hs
        rcases List.mem_cons.mp hs with rfl | hs
        · refine hrest.2.1 _ ?_
          rw [hres₁]
          exact dictContains_dictSet_self _ _ _
        · exact hrest.2.2 s hs

theorem execParallelLevels_all (registry : Registry) (now : Int)
    (levels : List (Nat × List OrchestratedTask)) :
    ∀ (keys : List Nat) (st : OrchestratorState) (wf : Workflow) (trace : List (List String)),
      ((execParallelLevels registry now levels st wf keys trace).2.2.1 = none) ∧
      (∀ id, dictContains wf.results id = true →
        dictContains (execParallelLevels registry now levels st wf keys trace).2.1.results id
          = true) ∧
      (∀ k ∈ keys, ∀ t ∈ (dictNatGet levels k).getD [],
        dictContains (execParallelLevels registry now levels st wf keys trace).2.1.results
          t.task_id = true) := by
  intro keys
  induction keys with
  | nil =>
    intro st wf trace
    exact ⟨rfl, fun id h => h, fun k hk => absurd hk (List.not_mem_nil k)⟩
  | cons key rest ih =>
    intro st wf trace
    simp only [execParallelLevels]
    rcases hg : gatherLevel registry now wf.shared_context st
      ((dictNatGet levels key).getD []) with ⟨st', slots⟩
    have hslots := gatherLevel_slots registry now wf.shared_context
      ((dictNatGet levels key).getD []) st
    rw [hg] at hslots
    have hproc := processLevelResults_all_ok wf slots hslots.2
    rcases hp : processLevelResults wf slots with ⟨wf₁, err⟩
    rw [hp] at hproc
    dsimp only at hslots hproc ⊢
    cases err with
    | some e => exact absurd hproc.1 (by simp)
    | none =>
      dsimp only
      have hrest := ih st' wf₁
        ((((dictNatGet levels key).getD []).map (fun t => t.task_id)) :: trace)
      refine ⟨hrest.1, ?_, ?_⟩
      · intro id h
        exact hrest.2.1 id (hproc.2.1 id h)
      · intro k hk t ht
        rcases List.mem_cons.mp hk with rfl | hk
        · -- the current level: its slot firsts are exactly the bucket
          have hex : ∃ s ∈ slots, s.1 = t := by
            have hmap : slots.map (fun s => s.1) = (dictNatGet levels k).getD [] := hslots.1
            rcases List.mem_map.mp (hmap ▸ ht) with ⟨s, hs, hst⟩
            exact ⟨s, hs, hst⟩
          obtain ⟨s, hs, hst⟩ := hex
          refine hrest.2.1 t.task_id ?_
          rw [← hst]
          exact hproc.2.2 s hs
        · exact hrest.2.2 k hk t ht

theorem dictNatGet_levelsAppend_same (l : List (Nat × List OrchestratedTask))
    (k : Nat) (t : OrchestratedTask) :
    dictNatGet (levelsAppend l k t) k = some ((dictNatGet l k).getD [] ++ [t]) := by
  induction l with
  | nil => simp [levelsAppend, dictNatGet]
  | cons kv rest ih =>
    obtain ⟨k₀, b⟩ := kv
    by_cases h : k₀ = k
    · subst h; simp [levelsAppend, dictNatGet]
    · simp [levelsAppend, dictNatGet, h, ih]

theorem dictNatGet_levelsAppend_ne (l : List (Nat × List OrchestratedTask))
    {k k' : Nat} (t : OrchestratedTask) (h : k ≠ k') :
    dictNatGet (levelsAppend l k t) k' = dictNatGet l k' := by
  induction l with
  | nil => simp [levelsAppend, dictNatGet, h]
  | cons kv rest ih =>
    obtain ⟨k₀, b⟩ := kv
    by_cases h₀ : k₀ = k
    · subst h₀
      simp [levelsAppend, dictNatGet, h, ih]
    · simp [levelsAppend, dictNatGet, h₀, ih]

theorem dictNatGet_mem_keys {l : List (Nat × List OrchestratedTask)} {k : Nat}
    {b : List OrchestratedTask} (h : dictNatGet l k = some b) : k ∈ l.map Prod.fst := by
  induction l with
  | nil => simp [dictNatGet] at h
  | cons kv rest ih =>
    obtain ⟨k₀, b₀⟩ := kv
    by_cases h₀ : k₀ = k
    · simp [h₀]
    · simp only [dictNatGet, if_neg h₀] at h
      simp [ih h]

/-- Each processed task lands in some bucket of the level structure, and
bucket membership is stable under further processing. -/
theorem calcLevelsGo_coverage (all_tasks : List OrchestratedTask) (fuel : Nat) :
    ∀ (tasks : List OrchestratedTask) (levels : List (Nat × List OrchestratedTask))
      (memo : Dict Nat) (levels' : List (Nat × List OrchestratedTask)) (memo' : Dict Nat),
      calcLevelsGo all_tasks fuel tasks levels memo = some (levels', memo') →
      ∀ t, ((∃ k b, dictNatGet levels k = some b ∧ t ∈ b) ∨ t ∈ tasks) →
        ∃ k b, dictNatGet levels' k = some b ∧ t ∈ b := by
  intro tasks
  induction tasks with
  | nil =>
    intro levels memo levels' memo' h t ht
    simp only [calcLevelsGo, Option.some_inj] at h
    obtain ⟨rfl, rfl⟩ := Prod.mk.injEq .. ▸ h
    rcases ht with ht | ht
    · exact ht
    · cases ht
  | cons task rest ih =>
    intro levels memo levels' memo' h t ht
    simp only [calcLevelsGo] at h
    rcases hcalc : calc_task_level all_tasks fuel task memo with _ | ⟨level, memo₁⟩
    · rw [hcalc] at h; cases h
    · rw [hcalc] at h
      refine ih (levelsAppend levels level task) memo₁ levels' memo' h t ?_
      rcases ht with ⟨k, b, hget, hmem⟩ | ht
      · left
        by_cases hk : level = k
        · subst hk
          exact ⟨level, _, dictNatGet_levelsAppend_same levels level task,
            by simp [hget, hmem]⟩
        · exact ⟨k, b, by rw [dictNatGet_levelsAppend_ne levels task hk]; exact hget, hmem⟩
      · rcases List.mem_cons.mp ht with rfl | ht
        · left
          exact ⟨level, _, dictNatGet_levelsAppend_same levels level t, by simp⟩
        · right; exact ht

/-- C2 (amended): whenever its level computation terminates (acyclic
graph), a parallel workflow — whatever its error strategy, and in
particular under fail-fast with failing tasks — never turns Failed: the
driver raises only on an exception escaping `_execute_single_task`,
which never happens, so every level executes (siblings of a failed task
included), every task receives a result entry, and the workflow is
stored Completed. -/
theorem C2_amended_parallel_always_completes
    (registry : Registry) (now : Int) (st : OrchestratorState) (wd : WorkflowDef)
    (levels : List (Nat × List OrchestratedTask)) (memo : Dict Nat)
    (hstrat : wd.execution_strategy = "parallel")
    (hlv : calc_dependency_levels (built_workflow wd now).tasks
             ((built_workflow wd now).tasks.length + 1) = some (levels, memo)) :
    ∃ wf',
      dictGet (execute_workflow registry now st wd).1.workflows wd.workflow_id = some wf' ∧
      wf'.status = WorkflowStatus.completed ∧
      ∀ t ∈ (built_workflow wd now).tasks, dictContains wf'.results t.task_id = true := by
  have hstratB : (built_workflow wd now).execution_strategy = "parallel" := hstrat
  have hpar : execute_parallel_workflow registry now
      { st with total_workflows := st.total_workflows + 1 } (built_workflow wd now)
      = execParallelLevels registry now levels
          { st with total_workflows := st.total_workflows + 1 } (built_workflow wd now)
          ((levels.map (·.1)).insertionSort (· ≤ ·)) [] := by
    unfold execute_parallel_workflow
    rw [hlv]
  have hall := execParallelLevels_all registry now levels
    ((levels.map (·.1)).insertionSort (· ≤ ·))
    { st with total_workflows := st.total_workflows + 1 } (built_workflow wd now) []
  have hid0 := execParallelLevels_workflow_id registry now levels
    ((levels.map (·.1)).insertionSort (· ≤ ·))
    { st with total_workflows := st.total_workflows + 1 } (built_workflow wd now) []
  have hrs := run_strategy_parallel registry now
    { st with total_workflows := st.total_workflows + 1 } (built_workflow wd now) hstratB
  rw [hpar] at hrs
  rcases hRv : execParallelLevels registry now levels
      { st with total_workflows := st.total_workflows + 1 } (built_workflow wd now)
      ((levels.map (·.1)).insertionSort (· ≤ ·)) [] with ⟨st2, wf2, err, trace⟩
  rw [hRv] at hrs hall hid0
  dsimp only at hrs hall hid0
  rcases hall with ⟨herrnone, hmono, hbuckets⟩
  subst herrnone
  have hw := execute_workflow_workflows_none registry now st wd st2 wf2 hrs
  have hkid : wf2.workflow_id = wd.workflow_id := hid0
  refine ⟨{ wf2 with status := WorkflowStatus.completed, completed_at := some now },
    ?_, rfl, ?_⟩
  · rw [hw, hkid, dictGet_dictSet_self]
  · intro t ht
    -- coverage: t lies in some bucket, whose key is among the sorted keys
    have hcov : ∃ k b, dictNatGet levels k = some b ∧ t ∈ b :=
      calcLevelsGo_coverage (built_workflow wd now).tasks
        ((built_workflow wd now).tasks.length + 1) (built_workflow wd now).tasks [] []
        levels memo hlv t (Or.inr ht)
    obtain ⟨k, b, hget, hmem⟩ := hcov
    have hkin : k ∈ (levels.map (·.1)).insertionSort (· ≤ ·) := by
      have := dictNatGet_mem_keys hget
      exact ((List.perm_insertionSort (· ≤ ·) (levels.map (·.1))).mem_iff).mpr this
    have := hbuckets k hkin t (by rw [hget]; simpa using hmem)
    simpa using this

/-- Witness for `C2_amended_parallel_always_completes` at the concrete
fail-fast parallel workflow `wdParAB` (failing A at level 0, dependent B
at level 1). -/
theorem C2_amended_witness :
    ∃ wf',
      dictGet (execute_workflow regFix 0 {} wdParAB).1.workflows wdParAB.workflow_id
        = some wf' ∧
      wf'.status = WorkflowStatus.completed ∧
      ∀ t ∈ (built_workflow wdParAB 0).tasks, dictContains wf'.results t.task_id = true :=
  C2_amended_parallel_always_completes regFix 0 {} wdParAB
    [(0, [{ task_id := "A", parent_workflow_id := some "wf-par", task_type := "t"
            agent_type := .content }]),
     (1, [{ task_id := "B", parent_workflow_id := some "wf-par", task_type := "t"
            agent_type := .email, dependencies := ["A"] }])]
    [("B", 1), ("A", 0)] rfl (by decide)

/-! ## Claim C8 -/

/-- Look every id up in the memo, all-or-nothing. -/
def lookupAll (memo : Dict Nat) : List String → Option (List Nat)
  | [] => some []
  | d :: ds =>
    match dictGet memo d with
    | none => none
    | some v =>
      match lookupAll memo ds with
      | none => none
      | some vs => some (v :: vs)

/-- Memo extension: every recorded binding is preserved. -/
def memoExt (memo memo' : Dict Nat) : Prop :=
  ∀ k w, dictGet memo k = some w → dictGet memo' k = some w

/-- The level recurrence of `_calculate_task_level`, relative to a memo:
level 0 without dependencies, otherwise one more than the maximum of the
dependencies' recorded levels. -/
def recOK (memo : Dict Nat) (t : OrchestratedTask) (w : Nat) : Prop :=
  (t.dependencies = [] → w = 0) ∧
  (t.dependencies ≠ [] →
    ∃ dvals, lookupAll memo t.dependencies = some dvals ∧
      w = dvals.foldl max 0 + 1)

/-- Every memo entry belongs to a task and satisfies the recurrence. -/
def memoGood (tasks : List OrchestratedTask) (memo : Dict Nat) : Prop :=
  ∀ id w, dictGet memo id = some w →
    ∃ t ∈ tasks, t.task_id = id ∧ recOK memo t w

theorem lookupAll_mono {memo memo' : Dict Nat} (hext : memoExt memo memo') :
    ∀ {ds : List String} {vs : List Nat},
      lookupAll memo ds = some vs → lookupAll memo' ds = some vs := by
  intro ds
  induction ds with
  | nil => intro vs h; exact h
  | cons d ds ih =>
    intro vs h
    simp only [lookupAll] at h ⊢
    rcases hd : dictGet memo d with _ | v
    · rw [hd] at h; cases h
    · rw [hd] at h
      rw [hext d v hd]
      rcases hds : lookupAll memo ds with _ | vs'
      · rw [hds] at h; cases h
      · rw [hds] at h
        rw [ih hds]
        exact h

theorem recOK_mono {memo memo' : Dict Nat} (hext : memoExt memo memo')
    {t : OrchestratedTask} {w : Nat} (h : recOK memo t w) : recOK memo' t w := by
  refine ⟨h.1, fun hne => ?_⟩
  obtain ⟨dvals, hl, hw⟩ := h.2 hne
  exact ⟨dvals, lookupAll_mono hext hl, hw⟩

theorem memoExt_refl (memo : Dict Nat) : memoExt memo memo := fun _ _ h => h

theorem memoExt_trans {m₁ m₂ m₃ : Dict Nat} (h₁ : memoExt m₁ m₂) (h₂ : memoExt m₂ m₃) :
    memoExt m₁ m₃ := fun k w h => h₂ k w (h₁ k w h)

/-- Consing a fresh binding extends the memo. -/
theorem memoExt_cons {memo : Dict Nat} {id : String} (v : Nat)
    (hfresh : dictGet memo id = none) : memoExt memo ((id, v) :: memo) := by
  intro k w h
  have hne : id ≠ k := fun he => by rw [he, h] at hfresh; cases hfresh
  simpa [dictGet, hne] using h

theorem taskMapGet_spec {tasks : List OrchestratedTask} {d : String}
    {u : OrchestratedTask} (h : taskMapGet tasks d = some u) :
    u ∈ tasks ∧ u.task_id = d := by
  induction tasks with
  | nil => cases h
  | cons t rest ih =>
    simp only [taskMapGet] at h
    rcases hr : taskMapGet rest d with _ | w
    · rw [hr] at h
      by_cases ht : t.task_id = d
      · rw [if_pos ht] at h
        cases h
        exact ⟨List.mem_cons_self _ _, ht⟩
      · rw [if_neg ht] at h; cases h
    · rw [hr] at h
      cases h
      obtain ⟨hm, hid⟩ := ih hr
      exact ⟨List.mem_cons_of_mem _ hm, hid⟩

theorem taskMapGet_total {tasks : List OrchestratedTask} {d : String}
    (h : ∃ u ∈ tasks, u.task_id = d) : ∃ w, taskMapGet tasks d = some w := by
  induction tasks with
  | nil => obtain ⟨u, hu, _⟩ := h; cases hu
  | cons t rest ih =>
    simp only [taskMapGet]
    rcases hr : taskMapGet rest d with _ | w
    · obtain ⟨u, hu, hid⟩ := h
      rcases List.mem_cons.mp hu with rfl | hu
      · exact ⟨u, by rw [if_pos hid]⟩
      · obtain ⟨w, hw⟩ := ih ⟨u, hu, hid⟩
        rw [hw] at hr; cases hr
    · exact ⟨w, rfl⟩

theorem foldl_int_max_cast (l : List Nat) :
    ∀ a : Nat, l.foldl (fun (x : Int) (b : Nat) => max x (b : Int)) (a : Int)
      = ((l.foldl max a : Nat) : Int) := by
  induction l with
  | nil => intro a; rfl
  | cons b bs ih =>
    intro a
    simp only [List.foldl_cons]
    rw [← Nat.cast_max]
    exact ih (max a b)

theorem foldl_int_max_neg_one (l : List Nat) (h : l ≠ []) :
    (l.foldl (fun (x : Int) (b : Nat) => max x (b : Int)) (-1 : Int) + 1).toNat
      = l.foldl max 0 + 1 := by
  cases l with
  | nil => cases h rfl
  | cons b bs =>
    simp only [List.foldl_cons]
    have h1 : max (-1 : Int) (b : Int) = (b : Int) := by
      apply max_eq_right
      omega
    have h2 : max 0 b = b := Nat.max_eq_right (Nat.zero_le b)
    rw [h1, h2, foldl_int_max_cast bs b]
    omega

theorem lookupAll_length {memo : Dict Nat} :
    ∀ {ds : List String} {vs : List Nat},
      lookupAll memo ds = some vs → vs.length = ds.length := by
  intro ds
  induction ds with
  | nil => intro vs h; cases h; rfl
  | cons d ds ih =>
    intro vs h
    simp only [lookupAll] at h
    rcases hd : dictGet memo d with _ | v
    · rw [hd] at h; cases h
    · rw [hd] at h
      rcases hds : lookupAll memo ds with _ | vs'
      · rw [hds] at h; cases h
      · rw [hds] at h
        cases h
        simp [ih hds]

theorem depsFold_none (tasks : List OrchestratedTask) (fuel : Nat) :
    ∀ deps : List String,
      deps.foldl (dep_step tasks (calc_task_level tasks fuel)) none = none := by
  intro deps
  induction deps with
  | nil => rfl
  | cons d ds ih => simpa [dep_step] using ih

/-- Invariant of the dependency fold of `_calculate_task_level`: given
that recursive calls at the current fuel behave (the `IH` argument), the
fold extends the memo, inserts only keys ranked at or below one of the
dependencies, keeps the memo good, and accumulates exactly the maximum of
the dependencies' recorded levels. -/
theorem depsFold_invariant (tasks : List OrchestratedTask) (rank : String → Nat)
    (fuel : Nat) (urank : Nat)
    (IH : ∀ u ∈ tasks, ∀ (memo : Dict Nat) (v : Nat) (memo' : Dict Nat),
      calc_task_level tasks fuel u memo = some (v, memo') →
      memoGood tasks memo →
      memoExt memo memo' ∧
      (∀ k, dictGet memo k = none → dictGet memo' k ≠ none → rank k ≤ rank u.task_id) ∧
      dictGet memo' u.task_id = some v ∧
      memoGood tasks memo') :
    ∀ (deps : List String),
      (∀ d ∈ deps, (∃ w ∈ tasks, w.task_id = d) ∧ rank d < urank) →
      ∀ (acc : Int) (m : Dict Nat) (accOut : Int) (mOut : Dict Nat),
        memoGood tasks m →
        deps.foldl (dep_step tasks (calc_task_level tasks fuel)) (some (acc, m))
          = some (accOut, mOut) →
        memoExt m mOut ∧
        (∀ k, dictGet m k = none → dictGet mOut k ≠ none → ∃ d ∈ deps, rank k ≤ rank d) ∧
        memoGood tasks mOut ∧
        ∃ dvals, lookupAll mOut deps = some dvals ∧
          accOut = dvals.foldl (fun (x : Int) (b : Nat) => max x (b : Int)) acc := by
  intro deps
  induction deps with
  | nil =>
    intro _ acc m accOut mOut hgood h
    obtain ⟨rfl, rfl⟩ := Prod.mk.injEq .. ▸ Option.some_inj.mp h
    exact ⟨memoExt_refl m, fun k h1 h2 => absurd h1 h2,
      hgood, [], rfl, rfl⟩
  | cons d ds ihds =>
    intro hdeps acc m accOut mOut hgood h
    obtain ⟨w, hwmem, hwid⟩ : ∃ w ∈ tasks, w.task_id = d := (hdeps d (List.mem_cons_self _ _)).1
    obtain ⟨w₀, hw₀⟩ := taskMapGet_total ⟨w, hwmem, hwid⟩
    obtain ⟨hw₀mem, hw₀id⟩ := taskMapGet_spec hw₀
    rw [List.foldl_cons] at h
    rcases hcl : calc_task_level tasks fuel w₀ m with _ | ⟨l, m₁⟩
    · rw [show dep_step tasks (calc_task_level tasks fuel) (some (acc, m)) d = none from by
        simp only [dep_step, hw₀, hcl]] at h
      rw [depsFold_none tasks fuel ds] at h
      cases h
    · rw [show dep_step tasks (calc_task_level tasks fuel) (some (acc, m)) d
          = some (max acc (l : Int), m₁) from by simp only [dep_step, hw₀, hcl]] at h
      obtain ⟨ext1, rank1, get1, good1⟩ := IH w₀ hw₀mem m l m₁ hcl hgood
      obtain ⟨ext2, rank2, good2, dvals, hlook, hacc⟩ :=
        ihds (fun d' hd' => hdeps d' (List.mem_cons_of_mem _ hd'))
          (max acc (l : Int)) m₁ accOut mOut good1 h
      refine ⟨memoExt_trans ext1 ext2, ?_, good2, l :: dvals, ?_, ?_⟩
      · intro k hk1 hk2
        rcases hk3 : dictGet m₁ k with _ | wk
        · obtain ⟨d', hd', hle⟩ := rank2 k hk3 hk2
          exact ⟨d', List.mem_cons_of_mem _ hd', hle⟩
        · have := rank1 k hk1 (by rw [hk3]; simp)
          exact ⟨d, List.mem_cons_self _ _, by rw [hw₀id] at this; exact this⟩
      · have hd' : dictGet mOut d = some l := by
          have := ext2 w₀.task_id l get1
          rw [hw₀id] at this
          exact this
        simp only [lookupAll, hd', hlook]
      · rw [hacc]
        rfl

/-- The memoization invariant of `_calculate_task_level` on a
rank-ordered (acyclic) closed task list: a successful computation
extends the memo, inserts only keys ranked at or below the computed
task, records the task's level, and keeps every memo entry on the level
recurrence. -/
theorem calc_level_invariant (tasks : List OrchestratedTask) (rank : String → Nat)
    (hclosed : ∀ t ∈ tasks, ∀ d ∈ t.dependencies, ∃ u ∈ tasks, u.task_id = d)
    (hrank : ∀ t ∈ tasks, ∀ d ∈ t.dependencies, rank d < rank t.task_id) :
    ∀ (fuel : Nat), ∀ u ∈ tasks, ∀ (memo : Dict Nat) (v : Nat) (memo' : Dict Nat),
      calc_task_level tasks fuel u memo = some (v, memo') →
      memoGood tasks memo →
      memoExt memo memo' ∧
      (∀ k, dictGet memo k = none → dictGet memo' k ≠ none → rank k ≤ rank u.task_id) ∧
      dictGet memo' u.task_id = some v ∧
      memoGood tasks memo' := by
  intro fuel
  induction fuel with
  | zero => intro u hu memo v memo' hcalc _; cases hcalc
  | succ fuel ih =>
    intro u hu memo v memo' hcalc hgood
    simp only [calc_task_level] at hcalc
    rcases hm : dictGet memo u.task_id with _ | v₀
    · rw [hm] at hcalc
      by_cases he : u.dependencies.isEmpty
      · rw [if_pos he] at hcalc
        dsimp only at hcalc
        obtain ⟨rfl, rfl⟩ := Prod.mk.injEq .. ▸ Option.some_inj.mp hcalc
        have hdeps : u.dependencies = [] := List.isEmpty_iff.mp he
        refine ⟨memoExt_cons 0 hm, ?_, by simp [dictGet], ?_⟩
        · intro k hk1 hk2
          by_cases hk : u.task_id = k
          · exact hk ▸ Nat.le_refl _
          · simp only [dictGet, if_neg hk] at hk2
            exact absurd hk1 hk2
        · intro id w hw
          by_cases hk : u.task_id = id
          · subst hk
            have hv : w = 0 := by simpa [dictGet, eq_comm] using hw
            subst hv
            exact ⟨u, hu, rfl, fun _ => rfl, fun hne => absurd hdeps hne⟩
          · simp only [dictGet, if_neg hk] at hw
            obtain ⟨t, ht, hid, hrec⟩ := hgood id w hw
            exact ⟨t, ht, hid, recOK_mono (memoExt_cons 0 hm) hrec⟩
      · rw [if_neg he] at hcalc
        have hdne : u.dependencies ≠ [] := fun hnil => he (by simp [hnil])
        rcases hfold : u.dependencies.foldl
            (dep_step tasks (calc_task_level tasks fuel)) (some ((-1 : Int), memo))
          with _ | ⟨accOut, memoOut⟩
        · rw [hfold] at hcalc; cases hcalc
        · rw [hfold] at hcalc
          dsimp only at hcalc
          obtain ⟨rfl, rfl⟩ := Prod.mk.injEq .. ▸ Option.some_inj.mp hcalc
          obtain ⟨ext1, ranknew, good1, dvals, hlook, hacc⟩ :=
            depsFold_invariant tasks rank fuel (rank u.task_id) ih u.dependencies
              (fun d hd => ⟨hclosed u hu d hd, hrank u hu d hd⟩)
              (-1) memo accOut memoOut hgood hfold
          have hfresh : dictGet memoOut u.task_id = none := by
            rcases hgo : dictGet memoOut u.task_id with _ | wk
            · rfl
            · obtain ⟨d, hd, hle⟩ := ranknew u.task_id hm (by rw [hgo]; simp)
              exact absurd (hrank u hu d hd) (by omega)
          have hdvne : dvals ≠ [] := by
            intro hnil
            have := lookupAll_length hlook
            rw [hnil] at this
            exact hdne (List.length_eq_zero.mp this.symm)
          refine ⟨memoExt_trans ext1 (memoExt_cons _ hfresh), ?_, by simp [dictGet], ?_⟩
          · intro k hk1 hk2
            rcases hk3 : dictGet memoOut k with _ | wk
            · by_cases hk : u.task_id = k
              · exact hk ▸ Nat.le_refl _
              · simp only [dictGet, if_neg hk, hk3] at hk2
                exact absurd rfl hk2
            · obtain ⟨d, hd, hle⟩ := ranknew k hk1 (by rw [hk3]; simp)
              exact Nat.le_of_lt (by have := hrank u hu d hd; omega)
          · intro id w hw
            by_cases hk : u.task_id = id
            · subst hk
              have hv : w = (accOut + 1).toNat := by simpa [dictGet, eq_comm] using hw
              subst hv
              refine ⟨u, hu, rfl, fun hnil => absurd hnil hdne, fun _ => ?_⟩
              refine ⟨dvals, lookupAll_mono (memoExt_cons _ hfresh) hlook, ?_⟩
              rw [hacc]
              exact foldl_int_max_neg_one dvals hdvne
            · simp only [dictGet, if_neg hk] at hw
              obtain ⟨t, ht, hid, hrec⟩ := good1 id w hw
              exact ⟨t, ht, hid, recOK_mono (memoExt_cons _ hfresh) hrec⟩
    · rw [hm] at hcalc
      dsimp only at hcalc
      obtain ⟨rfl, rfl⟩ := Prod.mk.injEq .. ▸ Option.some_inj.mp hcalc
      exact ⟨memoExt_refl memo, fun k h1 h2 => absurd h1 h2, hm, hgood⟩

theorem levelsAppend_stable {levels : List (Nat × List OrchestratedTask)} {k : Nat}
    {b : List OrchestratedTask} {t : OrchestratedTask}
    (h : dictNatGet levels k = some b) (hm : t ∈ b)
    (k₂ : Nat) (t₂ : OrchestratedTask) :
    ∃ b', dictNatGet (levelsAppend levels k₂ t₂) k = some b' ∧ t ∈ b' := by
  by_cases hk : k₂ = k
  · subst hk
    exact ⟨_, dictNatGet_levelsAppend_same levels k₂ t₂, by simp [h, hm]⟩
  · exact ⟨b, by rw [dictNatGet_levelsAppend_ne levels t₂ hk]; exact h, hm⟩

theorem calcLevelsGo_bucket_stable (tasks : List OrchestratedTask) (fuel : Nat) :
    ∀ (ts : List OrchestratedTask) (levels : List (Nat × List OrchestratedTask))
      (memo : Dict Nat) (levels' : List (Nat × List OrchestratedTask)) (memo' : Dict Nat)
      (k : Nat) (b : List OrchestratedTask) (t : OrchestratedTask),
      calcLevelsGo tasks fuel ts levels memo = some (levels', memo') →
      dictNatGet levels k = some b → t ∈ b →
      ∃ b', dictNatGet levels' k = some b' ∧ t ∈ b' := by
  intro ts
  induction ts with
  | nil =>
    intro levels memo levels' memo' k b t h hget hmem
    simp only [calcLevelsGo, Option.some_inj] at h
    obtain ⟨rfl, rfl⟩ := Prod.mk.injEq .. ▸ h
    exact ⟨b, hget, hmem⟩
  | cons task rest ihts =>
    intro levels memo levels' memo' k b t h hget hmem
    simp only [calcLevelsGo] at h
    rcases hcalc : calc_task_level tasks fuel task memo with _ | ⟨level, memo₁⟩
    · rw [hcalc] at h; cases h
    · rw [hcalc] at h
      obtain ⟨b₁, hget₁, hmem₁⟩ := levelsAppend_stable hget hmem level task
      exact ihts _ _ _ _ k b₁ t h hget₁ hmem₁

/-- The per-task loop of `_calculate_dependency_levels` keeps the memo
good and files every processed task in the bucket of its recorded
level. -/
theorem calcLevelsGo_spec (tasks : List OrchestratedTask) (rank : String → Nat)
    (hclosed : ∀ t ∈ tasks, ∀ d ∈ t.dependencies, ∃ u ∈ tasks, u.task_id = d)
    (hrank : ∀ t ∈ tasks, ∀ d ∈ t.dependencies, rank d < rank t.task_id)
    (fuel : Nat) :
    ∀ (ts : List OrchestratedTask), (∀ t ∈ ts, t ∈ tasks) →
      ∀ (levels : List (Nat × List OrchestratedTask)) (memo : Dict Nat)
        (levels' : List (Nat × List OrchestratedTask)) (memo' : Dict Nat),
        calcLevelsGo tasks fuel ts levels memo = some (levels', memo') →
        memoGood tasks memo →
        memoExt memo memo' ∧ memoGood tasks memo' ∧
        ∀ t ∈ ts, ∃ v, dictGet memo' t.task_id = some v ∧
          ∃ b, dictNatGet levels' v = some b ∧ t ∈ b := by
  intro ts
  induction ts with
  | nil =>
    intro _ levels memo levels' memo' h hgood
    simp only [calcLevelsGo, Option.some_inj] at h
    obtain ⟨rfl, rfl⟩ := Prod.mk.injEq .. ▸ h
    exact ⟨memoExt_refl memo, hgood, fun t ht => absurd ht (List.not_mem_nil t)⟩
  | cons task rest ihts =>
    intro hin levels memo levels' memo' h hgood
    simp only [calcLevelsGo] at h
    rcases hcalc : calc_task_level tasks fuel task memo with _ | ⟨v₁, memo₁⟩
    · rw [hcalc] at h; cases h
    · rw [hcalc] at h
      obtain ⟨ext1, _, get1, good1⟩ :=
        calc_level_invariant tasks rank hclosed hrank fuel task
          (hin task (List.mem_cons_self _ _)) memo v₁ memo₁ hcalc hgood
      obtain ⟨ext2, good2, hper⟩ :=
        ihts (fun t ht => hin t (List.mem_cons_of_mem _ ht))
          (levelsAppend levels v₁ task) memo₁ levels' memo' h good1
      refine ⟨memoExt_trans ext1 ext2, good2, ?_⟩
      intro t ht
      rcases List.mem_cons.mp ht with rfl | ht
      · refine ⟨v₁, ext2 _ _ get1, ?_⟩
        exact calcLevelsGo_bucket_stable tasks fuel rest _ _ _ _ v₁ _ t h
          (dictNatGet_levelsAppend_same levels v₁ t) (by simp)
      · exact hper t ht

/-- The §8 leveling workflow: A (no deps), B (depends on A), C (no
deps), run in parallel. -/
def wfLevels : Workflow :=
  { workflow_id := "wl", name := "levels", execution_strategy := "parallel"
    tasks := [taskA, taskB, taskC] }

/-- C8 (confirmed): on a closed, rank-ordered (hence acyclic) task list
with unique ids, whenever the memoized level computation terminates it
assigns level 0 to every task without dependencies and
`1 + max (level d)` over the dependencies otherwise, filing each task in
the bucket of its level; on the §8 example A (no deps), B (depends on
A), C (no deps) it yields exactly the buckets `{0 ↦ [A, C], 1 ↦ [B]}`
(memo `A ↦ 0, B ↦ 1, C ↦ 0`), and the parallel driver's dispatch trace
runs the whole level `[A, C]` — joined — before B's level, so B is never
dispatched before A completes. -/
theorem C8_dependency_levels :
    (∀ (tasks : List OrchestratedTask) (rank : String → Nat) (fuel : Nat)
       (levels : List (Nat × List OrchestratedTask)) (memo : Dict Nat),
       ((tasks.map fun t => t.task_id).Nodup) →
       (∀ t ∈ tasks, ∀ d ∈ t.dependencies, ∃ u ∈ tasks, u.task_id = d) →
       (∀ t ∈ tasks, ∀ d ∈ t.dependencies, rank d < rank t.task_id) →
       calc_dependency_levels tasks fuel = some (levels, memo) →
       ∀ t ∈ tasks, ∃ v, dictGet memo t.task_id = some v ∧
         (t.dependencies = [] → v = 0) ∧
         (t.dependencies ≠ [] →
           ∃ dvals, lookupAll memo t.dependencies = some dvals ∧
             v = dvals.foldl max 0 + 1) ∧
         ∃ b, dictNatGet levels v = some b ∧ t ∈ b) ∧
    (calc_dependency_levels [taskA, taskB, taskC] 4
      = some ([(0, [taskA, taskC]), (1, [taskB])], [("C", 0), ("B", 1), ("A", 0)])) ∧
    ((execute_parallel_workflow regFix 0 {} wfLevels).2.2.2 = [["A", "C"], ["B"]]) := by
  refine ⟨?_, by decide, by decide⟩
  intro tasks rank fuel levels memo hnd hclosed hrank hlv t ht
  have hgood0 : memoGood tasks [] := by
    intro id w h
    cases h
  obtain ⟨_, good, hper⟩ :=
    calcLevelsGo_spec tasks rank hclosed hrank fuel tasks (fun t ht => ht)
      [] [] levels memo hlv hgood0
  obtain ⟨v, hget, b, hbget, hbmem⟩ := hper t ht
  obtain ⟨t', ht', hid, hrec⟩ := good t.task_id v hget
  have htt : t' = t :=
    List.inj_on_of_nodup_map hnd ht' ht hid
  subst htt
  exact ⟨v, hget, hrec.1, hrec.2, b, hbget, hbmem⟩

/-- Witness for `C8_dependency_levels`' quantified part, instantiated at
the §8 example (task B, which depends on A). -/
theorem C8_witness :
    ∃ v, dictGet [("C", 0), ("B", 1), ("A", 0)] taskB.task_id = some v ∧
      (taskB.dependencies = [] → v = 0) ∧
      (taskB.dependencies ≠ [] →
        ∃ dvals, lookupAll [("C", 0), ("B", 1), ("A", 0)] taskB.dependencies = some dvals ∧
          v = dvals.foldl max 0 + 1) ∧
      ∃ b, dictNatGet [(0, [taskA, taskC]), (1, [taskB])] v = some b ∧ taskB ∈ b :=
  C8_dependency_levels.1 [taskA, taskB, taskC] (fun s => if s = "B" then 1 else 0) 4
    [(0, [taskA, taskC]), (1, [taskB])] [("C", 0), ("B", 1), ("A", 0)]
    (by decide) (by decide) (by decide) (by decide) taskB (by decide)

end AICoaching
